import Mathlib

/-!
# Verification of the SvnMonitor change-detection and notification engine

A shallow embedding, in Lean 4, of the core of `src/svn_monitor.py`
(class `SVNMonitor`): the revision-watermark state machine of `run` and
`process_commit`, the log parser `_parse_svn_log`, the paginated log
retrieval `_get_paginated_svn_log`, the lock-retry logic of
`_run_svn_command`, the notification dispatcher `send_email_notification`
and `_send_email`, and recipient resolution
`_get_recipients_for_repository`.

External effectful collaborators (the `svn` subprocess, the
`xml.etree.ElementTree` library, `smtplib`, the wall clock, the JSON
revision store) are modelled as explicit oracle parameters or explicit
state, so that every embedded function is a pure, executable Lean
definition whose control flow mirrors the Python source line by line.
-/

namespace SvnMonitor

/-! ## Python string primitives

Implemented over the underlying character list so that every operation
is structurally recursive (and therefore evaluable inside the kernel
on concrete inputs).  They model the CPython semantics of the string
operations the monitor uses; the needles and markers involved are all
ASCII, so the ASCII-only `Char.toLower` is adequate for `lower()`. -/

/-- Python `s.strip()` on a character list. -/
def stripChars (cs : List Char) : List Char :=
  ((cs.dropWhile Char.isWhitespace).reverse.dropWhile Char.isWhitespace).reverse

/-- Python `s.strip()`. -/
def pyStrip (s : String) : String := ⟨stripChars s.data⟩

/-- Python `s.lower()` (ASCII). -/
def pyLower (s : String) : String := ⟨s.data.map Char.toLower⟩

/-- Is `pre` a leading segment of `cs`? -/
def isPreList : List Char → List Char → Bool
  | [], _ => true
  | _ :: _, [] => false
  | p :: ps, c :: cs => p = c && isPreList ps cs

/-- Python `s.startswith(pre)`. -/
def pyStartsWith (s pre : String) : Bool := isPreList pre.data s.data

/-- Does `needle` occur as a contiguous segment of `hay`? -/
def containsSub (hay needle : List Char) : Bool :=
  match hay with
  | [] => needle.isEmpty
  | _ :: t => isPreList needle hay || containsSub t needle

/-- Python `needle in hay`. -/
def strContains (hay needle : String) : Bool := containsSub hay.data needle.data

/-- Python `s[n:]` (drop the first `n` characters). -/
def pyDrop (s : String) (n : Nat) : String := ⟨s.data.drop n⟩

/-- One fuel-counted step of `replace`: on a match consume the pattern
(`pat.length ≥ 1` characters) against one unit of fuel, otherwise move
one character; `fuel = cs.length` always suffices. -/
def replaceGo (pat rep : List Char) : Nat → List Char → List Char
  | 0, cs => cs
  | _ + 1, [] => []
  | fuel + 1, c :: cs =>
    if !pat.isEmpty && isPreList pat (c :: cs) then
      rep ++ replaceGo pat rep fuel ((c :: cs).drop pat.length)
    else c :: replaceGo pat rep fuel cs

/-- Python `s.replace(pat, rep)` (for a nonempty pattern). -/
def pyReplace (s pat rep : String) : String :=
  ⟨replaceGo pat.data rep.data s.data.length s.data⟩

/-! ## Generic helpers (Python dict primitives) -/

/-- Lookup in an insertion-ordered association list (a Python `dict`). -/
def assocLookup (m : List (String × α)) (k : String) : Option α :=
  match m with
  | [] => none
  | (k', v) :: rest => if k' = k then some v else assocLookup rest k

/-- `d.get(k, default)` on a Python dict. -/
def dictGetD (m : List (String × α)) (k : String) (dflt : α) : α :=
  (assocLookup m k).getD dflt

/-- `d[k] = v` on a Python dict: update in place if the key exists,
append otherwise (insertion order preserved, as in CPython). -/
def dictSet (m : List (String × α)) (k : String) (v : α) : List (String × α) :=
  match m with
  | [] => [(k, v)]
  | (k', v') :: rest =>
    if k' = k then (k, v) :: rest else (k', v') :: dictSet rest k v

/-- Python `int(s)` restricted to what the monitor feeds it (an optional
sign followed by decimal digits, surrounding whitespace allowed);
`none` models the `ValueError` raised on anything else.  (CPython also
accepts underscore digit grouping, which SVN revision attributes never
contain and which we do not model.) -/
def pyInt (s : String) : Option Int :=
  let t := pyStrip s
  let core : Option (Bool × List Char) :=
    match t.data with
    | [] => none
    | '-' :: rest => some (true, rest)
    | '+' :: rest => some (false, rest)
    | cs => some (false, cs)
  match core with
  | none => none
  | some (neg, ds) =>
    if ds = [] then none
    else if ds.all (fun c => c.isDigit) then
      let n : Nat := ds.foldl (fun acc c => acc * 10 + (c.toNat - '0'.toNat)) 0
      some (if neg then -(n : Int) else (n : Int))
    else none

/-- `', '.join(xs)` from Python. -/
def joinCS : List String → String
  | [] => ""
  | [r] => r
  | r :: rs => r ++ ", " ++ joinCS rs

/-! ## Data model

`ChangeRecord` is the dict built by `_parse_svn_log` for each logentry:
`{'revision': .., 'author': .., 'date': .., 'message': ..,
'changed_paths': [...], 'repository': ..}`.  `author` is an
`Option String` because the Python code stores `author_elem.text`,
which is `None` when the element is present but empty. -/

structure PathChange where
  path : String
  action : String
deriving DecidableEq, Repr

structure ChangeRecord where
  revision : Int
  author : Option String
  date : String
  message : String
  changed_paths : List PathChange
  repository : String
deriving DecidableEq, Repr

/-! ## XML model

`xml.etree.ElementTree` elements: a tag, attributes, optional text and
a list of children.  The library itself (parsing a byte string into a
tree, `ET.fromstring`) is an external component and is passed to the
embedded functions as an oracle `String → Except String XNode`, the
`Except` error carrying `str(e)` of the raised `ET.ParseError`. -/

inductive XNode where
  | elem (tag : String) (attrs : List (String × String))
         (text : Option String) (children : List XNode)

def XNode.tag : XNode → String
  | .elem t _ _ _ => t

def XNode.attrs : XNode → List (String × String)
  | .elem _ a _ _ => a

def XNode.text : XNode → Option String
  | .elem _ _ x _ => x

def XNode.children : XNode → List XNode
  | .elem _ _ _ cs => cs

/-- `element.get(name)`: attribute lookup. -/
def XNode.attr (n : XNode) (k : String) : Option String :=
  assocLookup n.attrs k

/-- `element.find(tag)`: first direct child with the given tag. -/
def findChild (n : XNode) (t : String) : Option XNode :=
  n.children.find? (fun c => c.tag = t)

mutual
/-- `root.findall('.//logentry')`: all strict descendants tagged
`logentry`, in document (preorder) order. -/
def descLogentries : XNode → List XNode
  | .elem _ _ _ cs => descLogentriesList cs

def descLogentriesList : List XNode → List XNode
  | [] => []
  | c :: cs =>
    (if c.tag = "logentry" then [c] else []) ++ descLogentries c
      ++ descLogentriesList cs
end

/-! ## `_parse_svn_log` (lines 1355-1512) -/

/-- One iteration of the entry loop (lines 1419-1485).  The only
statement in the loop body that can raise past its local handlers is
`int(logentry.get('revision', 0))`; a raise is caught by the
`except` at line 1483 and the entry is skipped, which we model by
returning `none`.  `fromiso` is the oracle for
`datetime.fromisoformat` composed with `strftime('%Y-%m-%d %H:%M:%S')`
(`none` = the decode raised); `now` is `get_beijing_time_str()`. -/
def processEntry (fromiso : String → Option String) (now : String)
    (repoName : String) (e : XNode) : Option ChangeRecord :=
  let revision? : Option Int :=
    match e.attr "revision" with
    | none => some 0
    | some a => pyInt a
  match revision? with
  | none => none
  | some rev =>
    let author : Option String :=
      match findChild e "author" with
      | some a => a.text
      | none => some "unknown"
    let date : String :=
      match findChild e "date" with
      | some d =>
        match d.text with
        | some t =>
          if t ≠ "" then
            match fromiso (pyReplace t "Z" "+00:00") with
            | some fmt => fmt
            | none => now
          else now
        | none => now
      | none => now
    let message : String :=
      match findChild e "msg" with
      | some m =>
        match m.text with
        | some t => if t ≠ "" then pyStrip t else ""
        | none => ""
      | none => ""
    let changed_paths : List PathChange :=
      match findChild e "paths" with
      | some ps =>
        (ps.children.filter (fun c => c.tag = "path")).foldr
          (fun p acc =>
            let action := (p.attr "action").getD "M"
            let pathName := (p.text).getD ""
            if pyStrip pathName ≠ "" then
              { path := pathName, action := action } :: acc
            else acc) []
      | none => []
    some { revision := rev, author := author, date := date,
           message := message, changed_paths := changed_paths,
           repository := repoName }

/-- Lines 1402-1412: `findall('.//logentry')`, falling back to a direct
child scan when the XPath query finds nothing. -/
def logentriesOf (root : XNode) : List XNode :=
  match descLogentries root with
  | [] => root.children.filter (fun c => c.tag = "logentry")
  | xs => xs

/-- The entry loop (lines 1419-1485): append each successfully parsed
record, skip entries whose processing raised. -/
def processLogRoot (fromiso : String → Option String) (now : String)
    (repoName : String) (root : XNode) : List ChangeRecord :=
  (logentriesOf root).foldl
    (fun acc e =>
      match processEntry fromiso now repoName e with
      | some r => acc ++ [r]
      | none => acc) []

/-- Which top-level handler produced the synthetic failure record:
`except ET.ParseError` (line 1490, message `XML parsing error`) or the
generic `except Exception` (line 1502, message
`Unknown error parsing log`, reached through the `UnboundLocalError`
on `root` when the first parse fails with an error that is not the
declaration-position one). -/
inductive ParseFail where
  | xmlError
  | unknownError
deriving DecidableEq, Repr

/-- The `ET.fromstring` attempt cascade of lines 1370-1396: first parse
attempt; on a declaration-position error, strip everything before the
first `<` and retry; on failure wrap in a `<log>` root and retry; any
re-raise from the final attempt lands in the outer handlers. -/
def tryParseTop (fromstring : String → Except String XNode) (s : String) :
    Sum XNode ParseFail :=
  match fromstring s with
  | .ok r => .inl r
  | .error e =>
    if strContains e "XML or text declaration not at start of entity" then
      match s.data.findIdx? (fun c => c = '<') with
      | some p =>
        if p > 0 then
          let s1 := pyDrop s p
          match fromstring s1 with
          | .ok r => .inl r
          | .error _ =>
            let s2 := if ¬ pyStartsWith s1 "<log" then "<log>" ++ s1 ++ "</log>" else s1
            match fromstring s2 with
            | .ok r => .inl r
            | .error _ => .inr .xmlError
        else
          let s2 := if ¬ pyStartsWith s "<log>" then "<log>" ++ s ++ "</log>" else s
          match fromstring s2 with
          | .ok r => .inl r
          | .error _ => .inr .xmlError
      | none =>
        let s2 := if ¬ pyStartsWith s "<log>" then "<log>" ++ s ++ "</log>" else s
        match fromstring s2 with
        | .ok r => .inl r
        | .error _ => .inr .xmlError
    else .inr .unknownError

/-- The synthetic one-element results of the outer handlers (lines
1494-1501 and 1505-1512); `nowIso` is `get_beijing_time().isoformat()`. -/
def failRecord (repoName msg nowIso : String) : ChangeRecord :=
  { revision := 0, author := some "unknown", date := nowIso,
    message := msg, changed_paths := [], repository := repoName }

/-- `SVNMonitor._parse_svn_log(xml_log, repo_name)`.  The input is
`Option String` (`None` or a string); the guard at line 1361 returns
the empty list for `None`, the empty string and all-whitespace input. -/
def parseSvnLog (fromstring : String → Except String XNode)
    (fromiso : String → Option String) (now nowIso : String)
    (xmlLog : Option String) (repoName : String) : List ChangeRecord :=
  match xmlLog with
  | none => []
  | some s0 =>
    if s0 = "" ∨ pyStrip s0 = "" then []
    else
      let s := pyStrip s0
      match tryParseTop fromstring s with
      | .inl root => processLogRoot fromiso now repoName root
      | .inr .xmlError => [failRecord repoName "XML parsing error" nowIso]
      | .inr .unknownError => [failRecord repoName "Unknown error parsing log" nowIso]

/-! ## `_get_paginated_svn_log` (lines 1163-1246)

`runLog a b` is the oracle for `_run_svn_command` on
`svn log <url> --xml --verbose -r a:b` (the decoded stdout, `""` on
failure); `enc` is the oracle for `ET.tostring(_, encoding='unicode')`.
The `time.sleep(0.5)` between pages has no observable effect on the
returned string and is not modelled. -/

/-- The revisions `a, a+1, ..., b` (empty when `b < a`). -/
def revList (a b : Nat) : List Nat := List.range' a (b + 1 - a)

/-- The `while current_start <= to_revision` loop of lines 1186-1225
with `page_size = 500`, written with an explicit fuel counter so that
the recursion is structural: each iteration advances `current_start`
by at least one, so `t + 1 - s` units of fuel always suffice.  Each
page is `(current_start, min (current_start + 499) to_revision)`. -/
def pageRangesGo (t : Nat) : Nat → Nat → List (Nat × Nat)
  | 0, _ => []
  | fuel + 1, s =>
    if s ≤ t then
      (s, min (s + 499) t) :: pageRangesGo t fuel (min (s + 499) t + 1)
    else []

/-- The pages walked for the revision range `s..t`. -/
def pageRanges (s t : Nat) : List (Nat × Nat) :=
  pageRangesGo t (t + 1 - s) s

/-- The `combined_logs` list: one chunk per page when the page query
returned output, otherwise (lines 1204-1217) one chunk per revision of
the page whose individual query returned output. -/
def pageChunks (runLog : Nat → Nat → String) (fromR toR : Nat) : List String :=
  (pageRanges fromR toR).foldr
    (fun pr acc =>
      let out := runLog pr.1 pr.2
      (if out ≠ "" then [out]
       else (revList pr.1 pr.2).filterMap (fun rev =>
          let o := runLog rev rev
          if o ≠ "" then some o else none)) ++ acc) []

/-- Lines 1228-1242: wrap the `logentry` elements of every parseable
chunk under one fresh `<log>` root and serialize it; `""` when there
are no chunks. -/
def combineChunks (enc : XNode → String)
    (fromstring : String → Except String XNode) (chunks : List String) : String :=
  match chunks with
  | [] => ""
  | _ =>
    enc (XNode.elem "log" [] none
      (chunks.foldr
        (fun c acc =>
          (match fromstring c with
           | .ok t => descLogentries t
           | .error _ => []) ++ acc) []))

/-- `SVNMonitor._get_paginated_svn_log`. -/
def getPaginatedSvnLog (enc : XNode → String)
    (fromstring : String → Except String XNode)
    (runLog : Nat → Nat → String) (fromR toR : Nat) : String :=
  combineChunks enc fromstring (pageChunks runLog fromR toR)

/-- Modelled from the spec: the remote repository as seen through
`svn log --xml --verbose -r a:b` — the server owns, per revision, at
most one `logentry` element, and a range query returns exactly the
entries of the revisions in the range, in ascending order, under a
`<log>` root.  This models the external SVN server (outside src/),
which section 6 of the spec describes as the opaque subprocess
boundary returning structured log output. -/
def svnLogTree (repoEntry : Nat → Option XNode) (a b : Nat) : XNode :=
  XNode.elem "log" [] none ((revList a b).filterMap repoEntry)

/-- Modelled from the spec: the `runLog` oracle of an honest,
deterministic server, serialized with the same `enc` used by the
monitor. -/
def honestRunLog (enc : XNode → String) (repoEntry : Nat → Option XNode) :
    Nat → Nat → String :=
  fun a b => enc (svnLogTree repoEntry a b)

/-! ## `_run_svn_command` (lines 935-1052)

The subprocess outcome of each attempt is an oracle value; the
function below consumes the list of outcomes of the successive
attempts.  The `is_retry` flag of the source only suppresses
re-adding credential arguments (the command list was already mutated
in place) — it is NOT consulted by the error handler, so a retry that
itself fails with a lock-related error runs the cleanup-and-retry path
again.  The recursion is bounded only by Python's recursion limit:
`RecursionError` is caught by the `except Exception` wrapper around
the retry (lines 1032-1046) and turned into `''`; exhaustion of the
outcome list models that limit.  The function returns the final
decoded output together with the number of subprocess attempts made. -/

inductive CmdOutcome where
  | success (out : String)
  | failure (stderr : String)
deriving DecidableEq, Repr

/-- `SVNMonitor._run_svn_command`, abstracted over the outcome of each
successive subprocess invocation.  A lock-related failure (message
containing `locked` or `cleanup`, case-insensitively, line 1024) runs
`_try_svn_cleanup` (whose result does not affect control flow: both
branches retry, lines 1028-1046) and retries; a non-lock failure
returns `''` (line 1049); cleanup side effects are not observable
here. -/
def runSvnCommand : List CmdOutcome → String × Nat
  | [] => ("", 0)
  | .success out :: _ => (out, 1)
  | .failure err :: rest =>
    if strContains (pyLower err) "locked" || strContains (pyLower err) "cleanup" then
      let r := runSvnCommand rest
      (r.1, r.2 + 1)
    else ("", 1)

/-! ## `_send_email` (lines 1937-2016) and
`send_email_notification` (lines 1550-1779) -/

/-- Outcome of one SMTP attempt: `authFail` = `SMTPAuthenticationError`
on `login` (line 1977), `smtpFail` = `smtplib.SMTPException` (line
1997), `otherFail` = any other exception (line 2001), `delivered` =
`send_message` returned (line 1991). -/
inductive SmtpOutcome where
  | authFail
  | smtpFail
  | otherFail
  | delivered
deriving DecidableEq, Repr

/-- The retry loop of `_send_email`:
`max_retries = 2; while retry_count <= max_retries and not success`.
`remaining = max_retries + 1 - retry_count` is the number of loop
iterations still allowed; `i` counts attempts already made.
`authFail` and `smtpFail` increment `retry_count` after a fixed
`time.sleep(2)` backoff (not observable here) and loop; `otherFail`
breaks; loop exhaustion and break both fall through to `return False`
(line 2008).  Returns (result, attempts made). -/
def sendEmailLoop (transport : Nat → SmtpOutcome) : Nat → Nat → Bool × Nat
  | 0, i => (false, i)
  | r + 1, i =>
    match transport i with
    | .delivered => (true, i + 1)
    | .authFail => sendEmailLoop transport r (i + 1)
    | .smtpFail => sendEmailLoop transport r (i + 1)
    | .otherFail => (false, i + 1)

/-- `SVNMonitor._send_email` (the transport part; both of its outer
`except Exception` handlers return `False`, so the boundary never
raises — the model is a total function into `Bool`). -/
def sendEmail (transport : Nat → SmtpOutcome) : Bool × Nat :=
  sendEmailLoop transport 3 0

/-- The `config['EMAIL']` fields consulted by the dispatch gating. -/
structure EmailConfig where
  hasEmailSection : Bool
  hasSmtpServer : Bool
  hasFromEmail : Bool
  hasToEmails : Bool
  username : Option String
  password : Option String

/-- Lines 1570-1574 (and identically 1948-1952): both keys present and
both values nonblank after `strip()`. -/
def hasCredentials (cfg : EmailConfig) : Bool :=
  match cfg.username, cfg.password with
  | some u, some p => pyStrip u ≠ "" && pyStrip p ≠ ""
  | _, _ => false

/-- `SVNMonitor.send_email_notification`: the gating logic in front of
`_send_email`.  Empty change list → `False` (line 1553); incomplete
transport configuration → `False` (line 1567); missing credentials →
the skip branch, logged at INFO severity, `return False` (line 1579)
with no transport attempt; otherwise the payload is built and handed
to `_send_email`.  Returns (result, transport attempts). -/
def sendEmailNotification (cfg : EmailConfig) (changes : List ChangeRecord)
    (transport : Nat → SmtpOutcome) : Bool × Nat :=
  match changes with
  | [] => (false, 0)
  | _ =>
    if ¬ (cfg.hasEmailSection && cfg.hasSmtpServer && cfg.hasFromEmail
          && cfg.hasToEmails) then (false, 0)
    else if ¬ hasCredentials cfg then (false, 0)
    else sendEmail transport

/-! ## `_get_recipients_for_repository` (lines 653-705)

The Python method returns early at each matching stage; each
`recipientsStageN` definition below is the continuation taken when
stage N-1 did not return.  The union at stage 5 accumulates into a
Python `set`, whose iteration order is unspecified; we model it as
first-occurrence order of the concatenated per-repository lists. -/

structure RecipientsConfig where
  recipientsMapping : List (String × List String)
  repoNameMapping : List (String × String)
  defaultToEmails : String

/-- De-duplication keeping first occurrences, with an explicit fuel
counter (`l.length` always suffices) so the recursion is structural. -/
def pyDedupGo : Nat → List String → List String
  | 0, _ => []
  | _ + 1, [] => []
  | fuel + 1, x :: xs => x :: pyDedupGo fuel (xs.filter (fun y => y ≠ x))

/-- The contents of a Python `set` built by successive `update` calls,
modelled in first-occurrence order (the order a real `set` iterates in
is unspecified). -/
def pyDedup (l : List String) : List String := pyDedupGo l.length l

/-- Lines 695-697: the union of all configured recipients. -/
def allExcelRecipients (cfg : RecipientsConfig) : List String :=
  pyDedup (cfg.recipientsMapping.foldl (fun acc p => acc ++ p.2) [])

/-- Lines 693-705: union of all configured recipients if the mapping is
nonempty and the union is nonempty, else the global default
`config['EMAIL']['to_emails']`. -/
def recipientsStage5 (cfg : RecipientsConfig) : String :=
  match cfg.recipientsMapping with
  | [] => cfg.defaultToEmails
  | _ =>
    match allExcelRecipients cfg with
    | [] => cfg.defaultToEmails
    | all => joinCS all

/-- Lines 685-691: strip a leading `REPO_`. -/
def recipientsStage4 (cfg : RecipientsConfig) (repoName : String) : String :=
  if pyStartsWith repoName "REPO_" then
    match assocLookup cfg.recipientsMapping (pyDrop repoName 5) with
    | some rs => joinCS rs
    | none => recipientsStage5 cfg
  else recipientsStage5 cfg

/-- Lines 678-683: add a `REPO_` marker. -/
def recipientsStage3 (cfg : RecipientsConfig) (repoName : String) : String :=
  match assocLookup cfg.recipientsMapping ("REPO_" ++ repoName) with
  | some rs => joinCS rs
  | none => recipientsStage4 cfg repoName

/-- Lines 671-676: display-name alias through `repo_name_mapping`
(`if mapped and mapped in self.recipients_mapping`; an empty mapped
name is falsy and falls through). -/
def recipientsStage2 (cfg : RecipientsConfig) (repoName : String) : String :=
  match assocLookup cfg.repoNameMapping repoName with
  | some mapped =>
    if mapped ≠ "" then
      match assocLookup cfg.recipientsMapping mapped with
      | some rs => joinCS rs
      | none => recipientsStage3 cfg repoName
    else recipientsStage3 cfg repoName
  | none => recipientsStage3 cfg repoName

/-- `SVNMonitor._get_recipients_for_repository` (entry: lines 665-669,
the exact-identifier match). -/
def getRecipientsForRepository (cfg : RecipientsConfig) (repoName : String) : String :=
  match assocLookup cfg.recipientsMapping repoName with
  | some rs => joinCS rs
  | none => recipientsStage2 cfg repoName

/-- Return the first nonempty string, else the default. -/
def firstNonEmpty : List String → String → String
  | [], dflt => dflt
  | s :: rest, dflt => if s ≠ "" then s else firstNonEmpty rest dflt

/-- Modelled from the spec (section 4.3): recipient resolution as the
first non-empty result among, in order: exact identifier match,
display-name alias match, identifier with the standard `REPO_` marker
added, identifier with the marker stripped, union of all configured
recipients, global default list. -/
def resolveRecipientsSpec (cfg : RecipientsConfig) (n : String) : String :=
  let exactS :=
    match assocLookup cfg.recipientsMapping n with
    | some rs => joinCS rs
    | none => ""
  let aliasS :=
    match assocLookup cfg.repoNameMapping n with
    | some m =>
      if m ≠ "" then
        match assocLookup cfg.recipientsMapping m with
        | some rs => joinCS rs
        | none => ""
      else ""
    | none => ""
  let taggedS :=
    match assocLookup cfg.recipientsMapping ("REPO_" ++ n) with
    | some rs => joinCS rs
    | none => ""
  let strippedS :=
    if pyStartsWith n "REPO_" then
      match assocLookup cfg.recipientsMapping (pyDrop n 5) with
      | some rs => joinCS rs
      | none => ""
    else ""
  let unionS := joinCS (allExcelRecipients cfg)
  firstNonEmpty [exactS, aliasS, taggedS, strippedS, unionS] cfg.defaultToEmails

/-! ## The scheduler cycle (`run`, lines 2401-2512) and the
hook-triggered `process_commit` (lines 707-777)

The persisted store `last_revisions.json` is a JSON object, modelled
as an insertion-ordered association list `RevMap`.  The cycle acts on
explicit state; the external world of one cycle (`svn info`, parsed
changes, the dispatch outcome) is a `CycleEnv`. -/

abbrev RevMap := List (String × Nat)

/-- A configured repository, reduced to the fields the watermark logic
reads: its identifier and `notify_on_changes`. -/
structure Repo where
  name : String
  notify : Bool
deriving DecidableEq, Repr

/-- The environment of one cycle: `latest n` is the result of
`get_latest_revision` for repository `n` (`none` = it raised, the
error is collected and the loop continues); `changes n last latest` is
the result of `get_changes(last, latest, repo_config)`; `dispatchOk`
is the boolean returned by `send_email_notification` when dispatch is
attempted. -/
structure CycleEnv where
  latest : String → Option Nat
  changes : String → Nat → Nat → List ChangeRecord
  dispatchOk : Bool

/-- `_get_last_recorded_revisions` (lines 431-454): keep the persisted
values of configured repositories (in configuration order), then
initialize every remaining configured repository to 0. -/
def loadRevisions (store : RevMap) (names : List String) : RevMap :=
  (names.filterMap (fun n =>
    match assocLookup store n with
    | some v => some (n, v)
    | none => none))
  ++ (names.filterMap (fun n =>
    match assocLookup store n with
    | some _ => none
    | none => some (n, 0)))

/-- The in-flight state of one cycle: the in-memory watermark map
`self.last_revisions`, the persisted store, the `all_changes` payload,
the `changes_to_update` pending map (name, last, latest), and the
collected per-repository errors. -/
structure CycleState where
  mem : RevMap
  store : RevMap
  allChanges : List ChangeRecord
  toUpdate : List (String × Nat × Nat)
  errors : List String

/-- One iteration of the per-repository loop (lines 2434-2470): compare
the latest revision to the watermark; a notification-enabled
repository with news goes into the pending set, a disabled one
advances its watermark immediately and the whole in-memory map is
saved (`_save_last_revisions`, lines 2458-2460); a raising check only
records an error. -/
def checkOneRepo (env : CycleEnv) (r : Repo) (st : CycleState) : CycleState :=
  match env.latest r.name with
  | none => { st with errors := st.errors ++ [r.name] }
  | some latest =>
    let last := dictGetD st.mem r.name 0
    if latest > last then
      let chs := env.changes r.name last latest
      if r.notify then
        { st with allChanges := st.allChanges ++ chs,
                  toUpdate := st.toUpdate ++ [(r.name, last, latest)] }
      else
        let mem' := dictSet st.mem r.name latest
        { st with mem := mem', store := mem' }
    else st

/-- The full per-repository loop. -/
def checkRepos (env : CycleEnv) (repos : List Repo) (st : CycleState) : CycleState :=
  repos.foldl (fun s r => checkOneRepo env r s) st

/-- Lines 2477-2493: dispatch one aggregated notification when
`all_changes` is nonempty; on success copy the in-memory map, advance
every pending repository, install and save it; on failure reload the
in-memory map from the persisted store and leave the store unwritten. -/
def dispatchPhase (env : CycleEnv) (names : List String) (st : CycleState) :
    CycleState :=
  match st.allChanges with
  | [] => st
  | _ =>
    if env.dispatchOk then
      let mem' := st.toUpdate.foldl (fun m u => dictSet m u.1 u.2.2) st.mem
      { st with mem := mem', store := mem' }
    else
      { st with mem := loadRevisions st.store names }

/-- One scheduled cycle (lines 2426-2493): reload the watermark map
fresh from the store, run the per-repository loop, then the dispatch
and commit phase. -/
def runCycle (repos : List Repo) (env : CycleEnv) (store0 : RevMap) : CycleState :=
  let names := repos.map Repo.name
  dispatchPhase env names
    (checkRepos env repos
      { mem := loadRevisions store0 names, store := store0,
        allChanges := [], toUpdate := [], errors := [] })

/-- `SVNMonitor.process_commit` (lines 707-777), after the repository
path has been matched to the configured repository `r` (the path
matching and first-repository fallback of lines 718-739 do not touch
the watermark logic).  A hook invocation runs in a fresh process whose
constructor loaded `self.last_revisions` from the store
(`_get_last_recorded_revisions`).  If the revision is new:
notifications enabled AND a nonempty change list → one dispatch, and
the watermark is persisted only on success (lines 757-766); otherwise
(disabled, or the retrieved change list is empty) the watermark is
persisted immediately with no dispatch (lines 767-770).  Returns the
resulting store and the number of dispatch attempts. -/
def processCommit (r : Repo) (names : List String) (store0 : RevMap)
    (getChanges : Nat → Nat → List ChangeRecord) (emailOk : Bool)
    (revision : Nat) : RevMap × Nat :=
  let mem := loadRevisions store0 names
  let last := dictGetD mem r.name 0
  if revision > last then
    let chs := getChanges last revision
    match r.notify, chs with
    | true, _ :: _ =>
      if emailOk then (dictSet mem r.name revision, 1) else (store0, 1)
    | _, _ => (dictSet mem r.name revision, 0)
  else (store0, 0)

/-- One persisted-store transition: a scheduled cycle or a
hook-triggered commit. -/
inductive MonitorOp where
  | cycle (env : CycleEnv)
  | hook (r : Repo) (getChanges : Nat → Nat → List ChangeRecord)
         (emailOk : Bool) (revision : Nat)

/-- The store after one operation. -/
def applyOp (repos : List Repo) (store : RevMap) : MonitorOp → RevMap
  | .cycle env => (runCycle repos env store).store
  | .hook r g ok rev => (processCommit r (repos.map Repo.name) store g ok rev).1

/-- The store after a sequence of operations. -/
def runOps (repos : List Repo) (ops : List MonitorOp) (store : RevMap) : RevMap :=
  ops.foldl (applyOp repos) store

/-! ## Derived notions used by the theorem statements -/

/-- The message of the synthetic record each top-level parse handler
produces. -/
def failMsg : ParseFail → String
  | .xmlError => "XML parsing error"
  | .unknownError => "Unknown error parsing log"

/-- The timestamp of a logentry decodes: a `date` child with truthy
text whose canonical form the `fromisoformat` oracle accepts.  When
this fails the source substitutes the detection-time wall clock
(lines 1431-1437). -/
def dateDecodes (fromiso : String → Option String) (e : XNode) : Prop :=
  ∃ d t, findChild e "date" = some d ∧ d.text = some t ∧ t ≠ "" ∧
    (fromiso (pyReplace t "Z" "+00:00")).isSome = true

/-- Lock-related failure as classified by line 1024. -/
def isLockFailure : CmdOutcome → Bool
  | .success _ => false
  | .failure err =>
    strContains (pyLower err) "locked" || strContains (pyLower err) "cleanup"

/-- The value the pending set `changes_to_update` takes in one cycle,
expressed against the watermark map read at cycle start: one entry
`(name, last, latest)` per notification-enabled repository whose
latest revision exceeds its watermark. -/
def toUpdateSpec (env : CycleEnv) (repos : List Repo) (mem : RevMap) :
    List (String × Nat × Nat) :=
  repos.filterMap (fun r =>
    match env.latest r.name with
    | none => none
    | some l =>
      if r.notify = true ∧ l > dictGetD mem r.name 0 then
        some (r.name, dictGetD mem r.name 0, l)
      else none)

/-! ## Concrete fixtures used by witnesses and counterexamples -/

/-- A sample change record. -/
def sampleRecord : ChangeRecord :=
  { revision := 7, author := some "alice", date := "2024-01-01 10:00:00",
    message := "fix", changed_paths := [{ path := "/trunk/a.c", action := "M" }],
    repository := "REPO_A" }

/-- A transport-complete email configuration with no credential pair:
the detect-only situation of claim C3. -/
def cfgDetectOnly : EmailConfig :=
  { hasEmailSection := true, hasSmtpServer := true, hasFromEmail := true,
    hasToEmails := true, username := none, password := none }

/-- A transport-complete email configuration with credentials. -/
def cfgWithCreds : EmailConfig :=
  { hasEmailSection := true, hasSmtpServer := true, hasFromEmail := true,
    hasToEmails := true, username := some "u", password := some "p" }

/-- A log tree with two well-formed entries surrounding one malformed
entry (its `revision` attribute does not parse as an integer, so
`int()` raises and the entry is skipped). -/
def mixedTree : XNode :=
  XNode.elem "log" [] none
    [XNode.elem "logentry" [("revision", "1")] none
       [XNode.elem "author" [] (some "alice") [],
        XNode.elem "msg" [] (some "first") []],
     XNode.elem "logentry" [("revision", "abc")] none [],
     XNode.elem "logentry" [("revision", "3")] none
       [XNode.elem "author" [] (some "bob") [],
        XNode.elem "msg" [] (some "third") []]]

/-- A log tree with a single entry whose timestamp does not decode. -/
def badDateTree : XNode :=
  XNode.elem "log" [] none
    [XNode.elem "logentry" [("revision", "1")] none
       [XNode.elem "date" [] (some "not-a-timestamp") []]]

/-- A log tree with a single entry whose timestamp decodes. -/
def goodDateTree : XNode :=
  XNode.elem "log" [] none
    [XNode.elem "logentry" [("revision", "1")] none
       [XNode.elem "date" [] (some "2024-01-01T00:00:00Z") []]]

/-- The empty `<log/>` tree. -/
def emptyLogTree : XNode := XNode.elem "log" [] none []

/-- The state at the start of one cycle: the watermark map freshly
reloaded from the store, nothing pending. -/
def cycleStart (repos : List Repo) (store0 : RevMap) : CycleState :=
  { mem := loadRevisions store0 (repos.map Repo.name), store := store0,
    allChanges := [], toUpdate := [], errors := [] }

/-- A `fromstring` oracle mapping the raw string `S` to `mixedTree`. -/
def fMixed : String → Except String XNode :=
  fun s => if s = "S" then .ok mixedTree else .error "x"

/-- A `fromstring` oracle mapping the raw string `S` to `badDateTree`. -/
def fBadDate : String → Except String XNode :=
  fun s => if s = "S" then .ok badDateTree else .error "x"

/-- A `fromstring` oracle mapping the raw string `S` to `goodDateTree`. -/
def fGoodDate : String → Except String XNode :=
  fun s => if s = "S" then .ok goodDateTree else .error "x"

/-- A `fromisoformat`-and-format oracle accepting exactly the canonical
form of `goodDateTree`'s timestamp. -/
def gIso : String → Option String :=
  fun s => if s = "2024-01-01T00:00:00+00:00" then some "2024-01-01 00:00:00" else none

/-- A cycle environment in which every repository reports latest
revision 5 with one change record, and the aggregated dispatch
fails. -/
def cycleFailEnv : CycleEnv :=
  { latest := fun _ => some 5,
    changes := fun _ _ _ => [sampleRecord],
    dispatchOk := false }

/-! # Theorems -/

/-! ## Shared lemmas about the dispatcher retry loop -/

theorem sendEmailLoop_count_le (transport : Nat → SmtpOutcome) :
    ∀ r i, (sendEmailLoop transport r i).2 ≤ i + r := by
  intro r
  induction r with
  | zero => intro i; simp [sendEmailLoop]
  | succ r ih =>
    intro i
    cases h : transport i <;> simp only [sendEmailLoop, h] <;>
      first
        | exact le_trans (ih (i + 1)) (by omega)
        | omega

theorem sendEmailLoop_nonfinal_transient (transport : Nat → SmtpOutcome) :
    ∀ r i j, i ≤ j → j + 1 < (sendEmailLoop transport r i).2 →
      transport j = .authFail ∨ transport j = .smtpFail := by
  intro r
  induction r with
  | zero => intro i j hij h; simp [sendEmailLoop] at h; omega
  | succ r ih =>
    intro i j hij h
    cases ht : transport i <;> simp [sendEmailLoop, ht] at h
    · rcases Nat.lt_or_ge i j with hlt | hge
      · exact ih (i + 1) j hlt h
      · left; have : i = j := le_antisymm hij hge; rw [← this]; exact ht
    · rcases Nat.lt_or_ge i j with hlt | hge
      · exact ih (i + 1) j hlt h
      · right; have : i = j := le_antisymm hij hge; rw [← this]; exact ht
    · omega
    · omega

/-- C4: for every message, `_send_email` retries transport-level
failures (SMTP authentication failure, transient SMTP exception) at
most 2 additional times beyond the first attempt — never more than 3
attempts in total — with a fixed backoff between attempts; a
non-transport error during sending is not retried (the loop breaks
after that single attempt); and the function is a total function into
`Bool`, modelling that all exceptions are caught at its boundary and
converted into a boolean. -/
theorem send_email_retry_bounded (transport : Nat → SmtpOutcome) :
    (sendEmail transport).2 ≤ 3 ∧
    (∀ j, j + 1 < (sendEmail transport).2 →
      transport j = .authFail ∨ transport j = .smtpFail) ∧
    (transport 0 = .otherFail → sendEmail transport = (false, 1)) := by
  refine ⟨?_, ?_, ?_⟩
  · simpa using sendEmailLoop_count_le transport 3 0
  · intro j h
    exact sendEmailLoop_nonfinal_transient transport 3 0 j (Nat.zero_le j) h
  · intro h; simp [sendEmail, sendEmailLoop, h]

/-- Witness for C4: with persistently failing transport the dispatcher
stops after 3 attempts; a non-transport error stops it after 1. -/
theorem send_email_retry_bounded_witness :
    (sendEmail (fun _ => SmtpOutcome.smtpFail)).2 ≤ 3 ∧
    sendEmail (fun i => if i = 0 then SmtpOutcome.otherFail else SmtpOutcome.delivered)
      = (false, 1) := by
  constructor
  · exact (send_email_retry_bounded (fun _ => SmtpOutcome.smtpFail)).1
  · exact (send_email_retry_bounded
      (fun i => if i = 0 then SmtpOutcome.otherFail else SmtpOutcome.delivered)).2.2
      (by decide)

/-! ## C8: the lock-failure retry of `_run_svn_command` -/

/-- Counterexample for C8: after a lock-related failure the command is
not retried at most once — two consecutive lock failures are followed
by a third attempt (which here succeeds), so 3 subprocess attempts are
made where the claim allows at most 2. -/
theorem svn_retry_not_bounded_by_one :
    (runSvnCommand [.failure "locked", .failure "locked", .success "ok"]).2 = 3 ∧
    ¬ ((runSvnCommand [.failure "locked", .failure "locked", .success "ok"]).2 ≤ 2) ∧
    (runSvnCommand [.failure "locked", .failure "locked", .success "ok"]).1 = "ok" := by
  decide

/-- C8 (amended): on a lock-related failure `_run_svn_command` runs
cleanup and retries, and the cleanup-and-retry pair repeats for every
consecutive lock-related failure, without a retry budget of its own —
the recursion is bounded only by the interpreter's recursion limit
(modelled by exhaustion of the outcome sequence).  A run that ends in
a non-lock failure, or that exhausts the limit, yields the empty
string rather than surfacing an error to the caller. -/
theorem svn_lock_retry_characterization (locks : List CmdOutcome)
    (h : ∀ o ∈ locks, isLockFailure o = true) :
    runSvnCommand locks = ("", locks.length) ∧
    (∀ out rest, runSvnCommand (locks ++ .success out :: rest) = (out, locks.length + 1)) ∧
    (∀ err rest, isLockFailure (.failure err) = false →
      runSvnCommand (locks ++ .failure err :: rest) = ("", locks.length + 1)) := by
  induction locks with
  | nil =>
    refine ⟨rfl, fun out rest => rfl, fun err rest herr => ?_⟩
    simp only [isLockFailure] at herr
    simp [runSvnCommand, herr]
  | cons o locks ih =>
    have ho : isLockFailure o = true := h o (List.mem_cons_self o locks)
    have htail : ∀ o' ∈ locks, isLockFailure o' = true :=
      fun o' ho' => h o' (List.mem_cons_of_mem o ho')
    obtain ⟨ih1, ih2, ih3⟩ := ih htail
    cases o with
    | success out => simp [isLockFailure] at ho
    | failure err =>
      simp only [isLockFailure] at ho
      refine ⟨?_, fun out rest => ?_, fun err' rest herr' => ?_⟩
      · simp [runSvnCommand, ho, ih1]
      · simp [runSvnCommand, ho, ih2 out rest]
      · simp [runSvnCommand, ho, ih3 err' rest herr']

/-- Witness for C8 (amended): two lock failures followed by a success
give 3 attempts returning the success output; two lock failures alone
exhaust the sequence and return the empty string. -/
theorem svn_lock_retry_characterization_witness :
    runSvnCommand [.failure "working copy locked", .failure "run cleanup",
      .success "r42"] = ("r42", 3) ∧
    runSvnCommand [.failure "working copy locked", .failure "run cleanup"]
      = ("", 2) := by
  have h := svn_lock_retry_characterization
    [.failure "working copy locked", .failure "run cleanup"] (by decide)
  exact ⟨h.2.1 "r42" [], h.1⟩

/-! ## C3: the credential-less skip of `send_email_notification` -/

/-- Counterexample for C3: with no credential pair configured the
dispatcher does skip delivery, but it reports the skip as `False` —
exactly the same negative dispatch outcome a genuine transport failure
produces — so the skip IS reported as a negative dispatch outcome and
the scheduler's commit logic cannot tell it from a failure. -/
theorem skip_without_credentials_returns_false :
    (sendEmailNotification cfgDetectOnly [sampleRecord] (fun _ => .delivered)).1 = false ∧
    (sendEmailNotification cfgDetectOnly [sampleRecord] (fun _ => .delivered)).1
      = (sendEmailNotification cfgWithCreds [sampleRecord] (fun _ => .otherFail)).1 := by
  decide

/-- C3 (amended): for every payload, if no SMTP credential pair is
configured (username or password missing or blank), the dispatcher
skips delivery — zero transport attempts are made, and the skip is
logged at informational severity — but it returns `False`, the same
negative outcome as a transport failure, so callers do not advance
watermarks for the skipped payload. -/
theorem no_credentials_skip_is_negative_noop (cfg : EmailConfig)
    (changes : List ChangeRecord) (transport : Nat → SmtpOutcome)
    (hcred : hasCredentials cfg = false) (hne : changes ≠ [])
    (hfields : cfg.hasEmailSection = true ∧ cfg.hasSmtpServer = true
      ∧ cfg.hasFromEmail = true ∧ cfg.hasToEmails = true) :
    sendEmailNotification cfg changes transport = (false, 0) := by
  obtain ⟨h1, h2, h3, h4⟩ := hfields
  cases changes with
  | nil => exact absurd rfl hne
  | cons c cs => simp [sendEmailNotification, h1, h2, h3, h4, hcred]

/-- Witness for C3 (amended): the detect-only configuration skips with
zero transport attempts and reports `False`. -/
theorem no_credentials_skip_is_negative_noop_witness :
    sendEmailNotification cfgDetectOnly [sampleRecord] (fun _ => .delivered)
      = (false, 0) := by
  exact no_credentials_skip_is_negative_noop cfgDetectOnly [sampleRecord]
    (fun _ => .delivered) (by decide) (by decide) (by decide)

/-! ## C5: total parse failure -/

/-- Counterexample for C5: on empty input — which the claim explicitly
includes — `_parse_svn_log` returns the empty sequence (the guard at
line 1361 returns the initial empty `changes` list), not a single
synthetic ChangeRecord. -/
theorem parse_empty_input_returns_empty :
    parseSvnLog (fun _ => .error "x") (fun _ => none) "now" "iso" (some "") "REPO_A"
      = [] := by
  decide

/-- C5 (amended): for every raw log input that is nonempty and not all
whitespace, if the top-level structure cannot be recovered by any
fallback (every `fromstring` attempt of the cascade fails), parse
returns exactly one synthetic ChangeRecord describing the parse
failure and raises no exception; empty, `None` or all-whitespace
input instead yields the empty sequence. -/
theorem parse_total_failure_single_record
    (fromstring : String → Except String XNode) (fromiso : String → Option String)
    (now nowIso s repoName : String) (fk : ParseFail)
    (h0 : pyStrip s ≠ "") (h1 : tryParseTop fromstring (pyStrip s) = .inr fk) :
    parseSvnLog fromstring fromiso now nowIso (some s) repoName
      = [failRecord repoName (failMsg fk) nowIso] := by
  have hs : s ≠ "" := by
    intro h; rw [h] at h0; exact h0 rfl
  simp only [parseSvnLog]
  rw [if_neg (not_or.mpr ⟨hs, h0⟩), h1]
  cases fk <;> rfl

/-- Witness for C5 (amended): a `fromstring` oracle that rejects every
string drives the parse into the generic handler, which produces the
single synthetic record. -/
theorem parse_total_failure_single_record_witness :
    parseSvnLog (fun _ => .error "boom") (fun _ => none) "now" "iso"
      (some " garbage ") "REPO_A"
      = [failRecord "REPO_A" "Unknown error parsing log" "iso"] := by
  exact parse_total_failure_single_record (fun _ => .error "boom") (fun _ => none)
    "now" "iso" " garbage " "REPO_A" ParseFail.unknownError (by decide) rfl

/-! ## Shared lemmas about the entry loop of `_parse_svn_log` -/

theorem foldl_append_filterMap (pe : XNode → Option ChangeRecord) :
    ∀ (l : List XNode) (acc : List ChangeRecord),
      l.foldl (fun acc e =>
        match pe e with
        | some r => acc ++ [r]
        | none => acc) acc = acc ++ l.filterMap pe := by
  intro l
  induction l with
  | nil => intro acc; simp
  | cons e l ih =>
    intro acc
    cases h : pe e <;> simp [List.foldl_cons, h, ih]

/-- The append-or-skip entry loop is a `filterMap`: one record per
successfully processed entry, in source order. -/
theorem processLogRoot_eq_filterMap (g : String → Option String) (now repoName : String)
    (root : XNode) :
    processLogRoot g now repoName root
      = (logentriesOf root).filterMap (processEntry g now repoName) := by
  simpa using foldl_append_filterMap (processEntry g now repoName) (logentriesOf root) []

/-- Unfolding of `parseSvnLog` when the attempt cascade recovers a
root. -/
theorem parseSvnLog_ok (fromstring : String → Except String XNode)
    (fromiso : String → Option String) (now nowIso s repoName : String) (root : XNode)
    (h0 : pyStrip s ≠ "") (h1 : tryParseTop fromstring (pyStrip s) = .inl root) :
    parseSvnLog fromstring fromiso now nowIso (some s) repoName
      = processLogRoot fromiso now repoName root := by
  have hs : s ≠ "" := by
    intro h; rw [h] at h0; exact h0 rfl
  simp only [parseSvnLog]
  rw [if_neg (not_or.mpr ⟨hs, h0⟩), h1]

/-- An entry whose timestamp decodes is processed identically whatever
the wall clock reads. -/
theorem processEntry_congr_now (g : String → Option String) (repoName : String)
    (e : XNode) (now1 now2 : String) (hd : dateDecodes g e) :
    processEntry g now1 repoName e = processEntry g now2 repoName e := by
  obtain ⟨d, t, hfind, htext, hne, hiso⟩ := hd
  obtain ⟨v, hv⟩ := Option.isSome_iff_exists.mp hiso
  simp [processEntry, hfind, htext, hne, hv]

/-! ## C6: malformed entries are skipped, order preserved -/

/-- C6: whenever the attempt cascade yields a root element, the parse
result is the `filterMap` of per-entry processing over the logentries
in source order: every entry whose processing raises (`int()` on a
bad `revision` attribute) is skipped, every parseable entry produces
exactly one ChangeRecord, and source order is preserved.  The witness
instantiates the spec scenario: one malformed entry between two valid
ones yields exactly the 2 valid records in order. -/
theorem parse_skips_malformed_entries (fromstring : String → Except String XNode)
    (fromiso : String → Option String) (now nowIso s repoName : String) (root : XNode)
    (h0 : pyStrip s ≠ "") (h1 : tryParseTop fromstring (pyStrip s) = .inl root) :
    parseSvnLog fromstring fromiso now nowIso (some s) repoName
      = (logentriesOf root).filterMap (processEntry fromiso now repoName) := by
  rw [parseSvnLog_ok fromstring fromiso now nowIso s repoName root h0 h1,
    processLogRoot_eq_filterMap]

/-- Witness for C6: the two valid entries of `mixedTree` survive in
order; the malformed middle entry is skipped. -/
theorem parse_skips_malformed_entries_witness :
    parseSvnLog fMixed (fun _ => none) "NOW" "ISO" (some "S") "REPO_A"
      = [{ revision := 1, author := some "alice", date := "NOW", message := "first",
           changed_paths := [], repository := "REPO_A" },
         { revision := 3, author := some "bob", date := "NOW", message := "third",
           changed_paths := [], repository := "REPO_A" }] := by
  rw [parse_skips_malformed_entries fMixed (fun _ => none) "NOW" "ISO" "S" "REPO_A"
    mixedTree (by decide) rfl]
  decide

/-! ## C10: determinism of re-parsing -/

/-- Counterexample for C10: for an entry whose timestamp cannot be
decoded the source substitutes the detection-time wall clock (line
1434), so two runs of parse on the same raw log and repository name,
at different wall-clock instants, yield different ChangeRecord
sequences — parsing is not deterministic with respect to its input
alone, precisely in the case the claim's parenthetical includes. -/
theorem parse_not_deterministic_on_bad_timestamp :
    parseSvnLog fBadDate (fun _ => none) "2024-01-01 10:00:00" "iso1" (some "S") "REPO_A"
      ≠ parseSvnLog fBadDate (fun _ => none) "2024-01-01 10:05:00" "iso2" (some "S") "REPO_A" := by
  decide

/-- C10 (amended): parsing is a pure function of the raw input, the
repository name AND the wall clock; it is deterministic with respect
to the input alone on every input whose structure is recovered and
all of whose entries carry a decodable timestamp (the wall clock then
never enters the result). -/
theorem parse_deterministic_when_dates_decode
    (fromstring : String → Except String XNode) (fromiso : String → Option String)
    (now1 nowIso1 now2 nowIso2 s repoName : String) (root : XNode)
    (h1 : tryParseTop fromstring (pyStrip s) = .inl root)
    (h2 : ∀ e ∈ logentriesOf root, dateDecodes fromiso e) :
    parseSvnLog fromstring fromiso now1 nowIso1 (some s) repoName
      = parseSvnLog fromstring fromiso now2 nowIso2 (some s) repoName := by
  by_cases hb : s = "" ∨ pyStrip s = ""
  · simp only [parseSvnLog, if_pos hb]
  · have h0 : pyStrip s ≠ "" := fun h => hb (Or.inr h)
    rw [parseSvnLog_ok fromstring fromiso now1 nowIso1 s repoName root h0 h1,
      parseSvnLog_ok fromstring fromiso now2 nowIso2 s repoName root h0 h1,
      processLogRoot_eq_filterMap, processLogRoot_eq_filterMap]
    exact List.filterMap_congr
      (fun e he => processEntry_congr_now fromiso repoName e now1 now2 (h2 e he))

/-- Witness for C10 (amended): with a decodable timestamp the parse
result is identical across two different wall-clock readings. -/
theorem parse_deterministic_when_dates_decode_witness :
    parseSvnLog fGoodDate gIso "T1" "I1" (some "S") "REPO_A"
      = parseSvnLog fGoodDate gIso "T2" "I2" (some "S") "REPO_A" := by
  apply parse_deterministic_when_dates_decode fGoodDate gIso "T1" "I1" "T2" "I2" "S"
    "REPO_A" goodDateTree rfl
  intro e he
  have hroot : logentriesOf goodDateTree
      = [XNode.elem "logentry" [("revision", "1")] none
          [XNode.elem "date" [] (some "2024-01-01T00:00:00Z") []]] := rfl
  rw [hroot] at he
  have he' := List.mem_singleton.mp he
  subst he'
  exact ⟨XNode.elem "date" [] (some "2024-01-01T00:00:00Z") [],
    "2024-01-01T00:00:00Z", rfl, rfl, by decide, by decide⟩

/-! ## Shared lemmas about strings, lookups and the recipient union -/

theorem data_append (a b : String) : (a ++ b).data = a.data ++ b.data := rfl

theorem joinCS_cons_ne_empty (r : String) (rs : List String) (hr : r ≠ "") :
    joinCS (r :: rs) ≠ "" := by
  cases rs with
  | nil => simpa [joinCS] using hr
  | cons r2 rs =>
    intro h
    have h' := congrArg String.data h
    have hjoin : joinCS (r :: r2 :: rs) = r ++ ", " ++ joinCS (r2 :: rs) := rfl
    rw [hjoin, data_append, data_append] at h'
    have hnil : ("" : String).data = [] := rfl
    rw [hnil, List.append_eq_nil, List.append_eq_nil] at h'
    exact absurd h'.1.2 (by decide)

theorem assocLookup_mem {α : Type} (m : List (String × α)) (k : String) (v : α)
    (h : assocLookup m k = some v) : (k, v) ∈ m := by
  induction m with
  | nil => simp [assocLookup] at h
  | cons p rest ih =>
    cases p with
    | mk k' v' =>
      simp only [assocLookup] at h
      split at h
      next hk =>
        obtain rfl : v' = v := by injection h
        subst hk
        exact List.mem_cons_self _ _
      next hk => exact List.mem_cons_of_mem _ (ih h)

theorem foldl_vals (m : List (String × List String)) :
    ∀ acc : List String,
      m.foldl (fun a p => a ++ p.2) acc = acc ++ (m.map Prod.snd).flatten := by
  induction m with
  | nil => intro acc; simp
  | cons p rest ih => intro acc; simp [List.foldl_cons, ih, List.append_assoc]

/-! ## C7: recipient resolution order

Each stage lemma rewrites the continuation taken when the previous
stages missed into first-nonempty form; the claim theorem assembles
them.  The hypothesis `hvals` is the invariant the Excel loaders
establish (lines 640-644): every configured recipient list is
nonempty and every configured address is a nonempty string. -/

theorem recipientsStage5_spec (cfg : RecipientsConfig)
    (hvals : ∀ p ∈ cfg.recipientsMapping, p.2 ≠ [] ∧ ∀ r ∈ p.2, r ≠ "") :
    recipientsStage5 cfg
      = firstNonEmpty [joinCS (allExcelRecipients cfg)] cfg.defaultToEmails := by
  cases hm : cfg.recipientsMapping with
  | nil =>
    have hAll : allExcelRecipients cfg = [] := by
      simp [allExcelRecipients, hm, pyDedup, pyDedupGo]
    simp [recipientsStage5, hm, firstNonEmpty, hAll, joinCS]
  | cons p rest =>
    obtain ⟨hne, hall⟩ := hvals p (by rw [hm]; exact List.mem_cons_self _ _)
    cases hv : p.2 with
    | nil => exact absurd hv hne
    | cons r rs =>
      have hr : r ≠ "" := hall r (by rw [hv]; exact List.mem_cons_self _ _)
      have hAll : ∃ xs, allExcelRecipients cfg = r :: xs := by
        unfold allExcelRecipients
        rw [hm, foldl_vals]
        simp only [List.nil_append, List.map_cons, List.flatten_cons, hv,
          List.cons_append]
        exact ⟨_, rfl⟩
      obtain ⟨xs, hAll⟩ := hAll
      have hj : joinCS (r :: xs) ≠ "" := joinCS_cons_ne_empty r xs hr
      simp only [recipientsStage5, hm, hAll, firstNonEmpty]
      rw [if_pos hj]

theorem recipientsStage4_spec (cfg : RecipientsConfig) (n : String)
    (hvals : ∀ p ∈ cfg.recipientsMapping, p.2 ≠ [] ∧ ∀ r ∈ p.2, r ≠ "") :
    recipientsStage4 cfg n
      = firstNonEmpty
          [(if pyStartsWith n "REPO_" then
              match assocLookup cfg.recipientsMapping (pyDrop n 5) with
              | some rs => joinCS rs
              | none => ""
            else ""),
           joinCS (allExcelRecipients cfg)] cfg.defaultToEmails := by
  by_cases hs : pyStartsWith n "REPO_" = true
  · cases hl : assocLookup cfg.recipientsMapping (pyDrop n 5) with
    | some rs =>
      obtain ⟨hne, hall⟩ := hvals _ (assocLookup_mem _ _ _ hl)
      cases rs with
      | nil => exact absurd rfl hne
      | cons r rs' =>
        have hj := joinCS_cons_ne_empty r rs' (hall r (List.mem_cons_self _ _))
        simp [recipientsStage4, hs, hl, firstNonEmpty, hj]
    | none =>
      simp only [recipientsStage4, hs, hl, if_true, firstNonEmpty, ne_eq,
        not_true_eq_false, if_false]
      rw [recipientsStage5_spec cfg hvals]
      simp [firstNonEmpty]
  · have hs' : pyStartsWith n "REPO_" = false := by
      cases h : pyStartsWith n "REPO_"
      · rfl
      · exact absurd h hs
    simp only [recipientsStage4, hs', Bool.false_eq_true, if_false, firstNonEmpty,
      ne_eq, not_true_eq_false]
    rw [recipientsStage5_spec cfg hvals]
    simp [firstNonEmpty]

theorem recipientsStage3_spec (cfg : RecipientsConfig) (n : String)
    (hvals : ∀ p ∈ cfg.recipientsMapping, p.2 ≠ [] ∧ ∀ r ∈ p.2, r ≠ "") :
    recipientsStage3 cfg n
      = firstNonEmpty
          [(match assocLookup cfg.recipientsMapping ("REPO_" ++ n) with
            | some rs => joinCS rs
            | none => ""),
           (if pyStartsWith n "REPO_" then
              match assocLookup cfg.recipientsMapping (pyDrop n 5) with
              | some rs => joinCS rs
              | none => ""
            else ""),
           joinCS (allExcelRecipients cfg)] cfg.defaultToEmails := by
  cases hl : assocLookup cfg.recipientsMapping ("REPO_" ++ n) with
  | some rs =>
    obtain ⟨hne, hall⟩ := hvals _ (assocLookup_mem _ _ _ hl)
    cases rs with
    | nil => exact absurd rfl hne
    | cons r rs' =>
      have hj := joinCS_cons_ne_empty r rs' (hall r (List.mem_cons_self _ _))
      simp [recipientsStage3, hl, firstNonEmpty, hj]
  | none =>
    simp only [recipientsStage3, hl, firstNonEmpty, ne_eq, not_true_eq_false,
      if_false]
    exact recipientsStage4_spec cfg n hvals

theorem recipientsStage2_spec (cfg : RecipientsConfig) (n : String)
    (hvals : ∀ p ∈ cfg.recipientsMapping, p.2 ≠ [] ∧ ∀ r ∈ p.2, r ≠ "") :
    recipientsStage2 cfg n
      = firstNonEmpty
          [(match assocLookup cfg.repoNameMapping n with
            | some m =>
              if m ≠ "" then
                match assocLookup cfg.recipientsMapping m with
                | some rs => joinCS rs
                | none => ""
              else ""
            | none => ""),
           (match assocLookup cfg.recipientsMapping ("REPO_" ++ n) with
            | some rs => joinCS rs
            | none => ""),
           (if pyStartsWith n "REPO_" then
              match assocLookup cfg.recipientsMapping (pyDrop n 5) with
              | some rs => joinCS rs
              | none => ""
            else ""),
           joinCS (allExcelRecipients cfg)] cfg.defaultToEmails := by
  cases ha : assocLookup cfg.repoNameMapping n with
  | some m =>
    by_cases hm0 : m = ""
    · simp only [recipientsStage2, ha, hm0, ne_eq, not_true_eq_false, if_false,
        firstNonEmpty, not_false_eq_true]
      exact recipientsStage3_spec cfg n hvals
    · cases hl : assocLookup cfg.recipientsMapping m with
      | some rs =>
        obtain ⟨hne, hall⟩ := hvals _ (assocLookup_mem _ _ _ hl)
        cases rs with
        | nil => exact absurd rfl hne
        | cons r rs' =>
          have hj := joinCS_cons_ne_empty r rs' (hall r (List.mem_cons_self _ _))
          simp [recipientsStage2, ha, hm0, hl, firstNonEmpty, hj]
      | none =>
        simp only [recipientsStage2, ha, hm0, hl, ne_eq, not_false_eq_true,
          if_true, firstNonEmpty, not_true_eq_false, if_false]
        exact recipientsStage3_spec cfg n hvals
  | none =>
    simp only [recipientsStage2, ha, firstNonEmpty, ne_eq, not_true_eq_false,
      if_false]
    exact recipientsStage3_spec cfg n hvals

/-- C7: for every repository identifier and every recipient
configuration satisfying the loader invariant (configured recipient
lists are nonempty lists of nonempty addresses),
`_get_recipients_for_repository` equals the spec-side resolution: the
first non-empty result among exact identifier match, display-name
alias match, identifier with the `REPO_` marker added, identifier with
the marker stripped, the union of all configured recipients, and
finally the global default recipient list. -/
theorem recipient_resolution_order (cfg : RecipientsConfig) (n : String)
    (hvals : ∀ p ∈ cfg.recipientsMapping, p.2 ≠ [] ∧ ∀ r ∈ p.2, r ≠ "") :
    getRecipientsForRepository cfg n = resolveRecipientsSpec cfg n := by
  simp only [resolveRecipientsSpec]
  cases he : assocLookup cfg.recipientsMapping n with
  | some rs =>
    obtain ⟨hne, hall⟩ := hvals _ (assocLookup_mem _ _ _ he)
    cases rs with
    | nil => exact absurd rfl hne
    | cons r rs' =>
      have hj := joinCS_cons_ne_empty r rs' (hall r (List.mem_cons_self _ _))
      simp [getRecipientsForRepository, he, firstNonEmpty, hj]
  | none =>
    simp only [getRecipientsForRepository, he, firstNonEmpty, ne_eq,
      not_true_eq_false, if_false]
    exact recipientsStage2_spec cfg n hvals

/-- Witness for C7: a configuration resolved through the display-name
alias stage. -/
theorem recipient_resolution_order_witness :
    getRecipientsForRepository
        ⟨[("REPO_A", ["a@x", "b@x"])], [("repoA", "REPO_A")], "d@x"⟩ "repoA"
      = resolveRecipientsSpec
        ⟨[("REPO_A", ["a@x", "b@x"])], [("repoA", "REPO_A")], "d@x"⟩ "repoA" ∧
    getRecipientsForRepository
        ⟨[("REPO_A", ["a@x", "b@x"])], [("repoA", "REPO_A")], "d@x"⟩ "repoA"
      = "a@x, b@x" := by
  constructor
  · exact recipient_resolution_order
      ⟨[("REPO_A", ["a@x", "b@x"])], [("repoA", "REPO_A")], "d@x"⟩ "repoA" (by decide)
  · decide

/-! ## Shared lemmas about pagination -/

theorem revList_split (s e t : Nat) (h1 : s ≤ e + 1) (h2 : e ≤ t) :
    revList s t = revList s e ++ revList (e + 1) t := by
  have key := List.range'_append_1 s (e + 1 - s) (t - e)
  rw [show s + (e + 1 - s) = e + 1 from by omega,
    show t - e + (e + 1 - s) = t + 1 - s from by omega] at key
  simp only [revList]
  rw [show t + 1 - (e + 1) = t - e from by omega]
  exact key.symm

theorem pageRangesGo_entries (repoEntry : Nat → Option XNode) (t : Nat) :
    ∀ fuel s, t + 1 - s ≤ fuel →
      (pageRangesGo t fuel s).foldr
        (fun pr acc => (revList pr.1 pr.2).filterMap repoEntry ++ acc) []
        = (revList s t).filterMap repoEntry := by
  intro fuel
  induction fuel with
  | zero =>
    intro s hs
    rw [show pageRangesGo t 0 s = [] from rfl]
    simp [revList, show t + 1 - s = 0 from by omega]
  | succ fuel ih =>
    intro s hs
    by_cases hst : s ≤ t
    · simp only [pageRangesGo, if_pos hst, List.foldr_cons]
      have h1 : s ≤ min (s + 499) t + 1 := by omega
      have h2 : min (s + 499) t ≤ t := by omega
      rw [ih (min (s + 499) t + 1) (by omega),
        revList_split s (min (s + 499) t) t h1 h2, List.filterMap_append]
    · simp only [pageRangesGo, if_neg hst, List.foldr_nil]
      simp [revList, show t + 1 - s = 0 from by omega]

theorem pageRanges_ne_nil (s t : Nat) (h : s ≤ t) : pageRanges s t ≠ [] := by
  unfold pageRanges
  rw [show t + 1 - s = (t - s) + 1 from by omega]
  simp [pageRangesGo, h]

theorem pageChunks_eq_map (runLog : Nat → Nat → String) (a b : Nat)
    (h : ∀ pr ∈ pageRanges a b, runLog pr.1 pr.2 ≠ "") :
    pageChunks runLog a b = (pageRanges a b).map (fun pr => runLog pr.1 pr.2) := by
  have aux : ∀ l : List (Nat × Nat), (∀ pr ∈ l, runLog pr.1 pr.2 ≠ "") →
      l.foldr (fun pr acc =>
        (if runLog pr.1 pr.2 ≠ "" then [runLog pr.1 pr.2]
         else (revList pr.1 pr.2).filterMap (fun rev =>
            if runLog rev rev ≠ "" then some (runLog rev rev) else none)) ++ acc) []
        = l.map (fun pr => runLog pr.1 pr.2) := by
    intro l
    induction l with
    | nil => intro _; rfl
    | cons pr rest ih =>
      intro hl
      rw [List.foldr_cons, if_pos (hl pr (List.mem_cons_self _ _)),
        ih (fun q hq => hl q (List.mem_cons_of_mem _ hq)), List.map_cons]
      rfl
  exact aux (pageRanges a b) h

theorem descLogentriesList_all_entries (cs : List XNode)
    (h : ∀ c ∈ cs, c.tag = "logentry" ∧ descLogentries c = []) :
    descLogentriesList cs = cs := by
  induction cs with
  | nil => rfl
  | cons c cs ih =>
    obtain ⟨h1, h2⟩ := h c (List.mem_cons_self _ _)
    simp [descLogentriesList, h1, h2,
      ih (fun c' hc' => h c' (List.mem_cons_of_mem _ hc'))]

theorem descLogentries_svnLogTree (repoEntry : Nat → Option XNode) (a b : Nat)
    (hent : ∀ rev e, repoEntry rev = some e →
      e.tag = "logentry" ∧ descLogentries e = []) :
    descLogentries (svnLogTree repoEntry a b)
      = (revList a b).filterMap repoEntry := by
  have : descLogentries (svnLogTree repoEntry a b)
      = descLogentriesList ((revList a b).filterMap repoEntry) := rfl
  rw [this]
  apply descLogentriesList_all_entries
  intro c hc
  obtain ⟨rev, _, hre⟩ := List.mem_filterMap.mp hc
  exact hent rev c hre

theorem combineChunks_fold (enc : XNode → String)
    (dec : String → Except String XNode) (repoEntry : Nat → Option XNode)
    (hent : ∀ rev e, repoEntry rev = some e →
      e.tag = "logentry" ∧ descLogentries e = []) :
    ∀ l : List (Nat × Nat),
      (∀ pr ∈ l, dec (enc (svnLogTree repoEntry pr.1 pr.2))
        = .ok (svnLogTree repoEntry pr.1 pr.2)) →
      (l.map (fun pr => enc (svnLogTree repoEntry pr.1 pr.2))).foldr
        (fun c acc =>
          (match dec c with
           | .ok tr => descLogentries tr
           | .error _ => []) ++ acc) []
        = l.foldr (fun pr acc => (revList pr.1 pr.2).filterMap repoEntry ++ acc) [] := by
  intro l
  induction l with
  | nil => intro _; rfl
  | cons pr rest ih =>
    intro hl
    rw [List.map_cons, List.foldr_cons, hl pr (List.mem_cons_self _ _),
      ih (fun q hq => hl q (List.mem_cons_of_mem _ hq)), List.foldr_cons]
    have hred : (match (Except.ok (svnLogTree repoEntry pr.1 pr.2) :
          Except String XNode) with
        | Except.ok tr => descLogentries tr
        | Except.error _ => ([] : List XNode))
        = descLogentries (svnLogTree repoEntry pr.1 pr.2) := rfl
    rw [hred, descLogentries_svnLogTree repoEntry pr.1 pr.2 hent]

/-! ## C9: pagination fidelity -/

/-- C9: against an honest deterministic server (`honestRunLog`: a range
query returns precisely the entries of the revisions in the range, in
ascending order, serialized under one `<log>` root), the paginated
retrieval — 500-revision pages, one query per page, the per-revision
fallback for empty pages, concatenation under one fresh root — parses
to exactly the ChangeRecord sequence of a single non-paginated query
over the whole range: same records, same order, nothing duplicated or
dropped at page boundaries.  `hpage` is the round-trip contract of the
external XML library on the page documents. -/
theorem pagination_fidelity (enc : XNode → String)
    (dec : String → Except String XNode) (fromiso : String → Option String)
    (now nowIso repoName : String) (repoEntry : Nat → Option XNode)
    (fromR toR : Nat)
    (hwide : fromR + 500 ≤ toR)
    (hent : ∀ rev e, repoEntry rev = some e →
      e.tag = "logentry" ∧ descLogentries e = [])
    (hpage : ∀ pr ∈ pageRanges fromR toR,
      dec (honestRunLog enc repoEntry pr.1 pr.2)
          = .ok (svnLogTree repoEntry pr.1 pr.2)
        ∧ honestRunLog enc repoEntry pr.1 pr.2 ≠ "") :
    parseSvnLog dec fromiso now nowIso
        (some (getPaginatedSvnLog enc dec (honestRunLog enc repoEntry) fromR toR))
        repoName
      = parseSvnLog dec fromiso now nowIso
        (some (honestRunLog enc repoEntry fromR toR)) repoName := by
  have hkey : getPaginatedSvnLog enc dec (honestRunLog enc repoEntry) fromR toR
      = honestRunLog enc repoEntry fromR toR := by
    unfold getPaginatedSvnLog
    rw [pageChunks_eq_map (honestRunLog enc repoEntry) fromR toR
      (fun pr hpr => (hpage pr hpr).2)]
    have hmapeq : (pageRanges fromR toR).map
        (fun pr => honestRunLog enc repoEntry pr.1 pr.2)
        = (pageRanges fromR toR).map
          (fun pr => enc (svnLogTree repoEntry pr.1 pr.2)) := rfl
    rw [hmapeq]
    cases hpr : pageRanges fromR toR with
    | nil => exact absurd hpr (pageRanges_ne_nil fromR toR (by omega))
    | cons p0 prest =>
      have hfold := combineChunks_fold enc dec repoEntry hent (p0 :: prest)
        (by rw [← hpr]; exact fun pr hpr' => (hpage pr hpr').1)
      have hent2 : List.foldr
          (fun pr acc => (revList pr.1 pr.2).filterMap repoEntry ++ acc) []
          (p0 :: prest) = (revList fromR toR).filterMap repoEntry := by
        rw [← hpr]
        exact pageRangesGo_entries repoEntry toR (toR + 1 - fromR) fromR (le_refl _)
      have hcomb : combineChunks enc dec
          ((p0 :: prest).map (fun pr => enc (svnLogTree repoEntry pr.1 pr.2)))
          = enc (XNode.elem "log" [] none
            (((p0 :: prest).map
              (fun pr => enc (svnLogTree repoEntry pr.1 pr.2))).foldr
              (fun c acc =>
                (match dec c with
                 | Except.ok tr => descLogentries tr
                 | Except.error _ => []) ++ acc) [])) := rfl
      rw [hcomb, hfold, hent2]
      rfl
  rw [hkey]

/-- Witness for C9: a two-page range over an empty repository, with a
concrete serializer/parser pair that round-trips the (empty) page
documents. -/
theorem pagination_fidelity_witness :
    parseSvnLog
        (fun s => if s = "<log/>" then .ok emptyLogTree else .error "e")
        (fun _ => none) "now" "iso"
        (some (getPaginatedSvnLog (fun _ => "<log/>")
          (fun s => if s = "<log/>" then .ok emptyLogTree else .error "e")
          (honestRunLog (fun _ => "<log/>") (fun _ => none)) 0 500))
        "REPO_A"
      = parseSvnLog
        (fun s => if s = "<log/>" then .ok emptyLogTree else .error "e")
        (fun _ => none) "now" "iso"
        (some (honestRunLog (fun _ => "<log/>") (fun _ => none) 0 500)) "REPO_A" := by
  apply pagination_fidelity (fun _ => "<log/>")
    (fun s => if s = "<log/>" then .ok emptyLogTree else .error "e")
    (fun _ => none) "now" "iso" "REPO_A" (fun _ => none) 0 500 (by omega)
  · intro rev e h
    exact absurd h (by simp)
  · have hsvn : ∀ a b : Nat, svnLogTree (fun _ => none) a b = emptyLogTree := by
      intro a b
      simp only [svnLogTree, emptyLogTree]
      rw [List.filterMap_eq_nil_iff.mpr (fun a _ => rfl)]
    intro pr hpr
    rw [show pageRanges 0 500 = [(0, 499), (500, 500)] from by decide] at hpr
    rcases List.mem_cons.mp hpr with h | h
    · rw [h, hsvn]; exact ⟨rfl, by decide⟩
    · rw [List.mem_singleton.mp h, hsvn]; exact ⟨rfl, by decide⟩

/-! ## Shared lemmas about the watermark dictionaries -/

theorem assocLookup_dictSet_self {α : Type} (m : List (String × α)) (k : String)
    (v : α) : assocLookup (dictSet m k v) k = some v := by
  induction m with
  | nil => simp [dictSet, assocLookup]
  | cons p rest ih =>
    cases p with
    | mk k' v' =>
      by_cases hk : k' = k
      · simp [dictSet, hk, assocLookup]
      · simp [dictSet, hk, assocLookup, ih]

theorem assocLookup_dictSet_ne {α : Type} (m : List (String × α)) (k : String)
    (v : α) (n : String) (h : n ≠ k) :
    assocLookup (dictSet m k v) n = assocLookup m n := by
  induction m with
  | nil => simp [dictSet, assocLookup, Ne.symm h]
  | cons p rest ih =>
    cases p with
    | mk k' v' =>
      by_cases hk : k' = k
      · subst hk
        simp [dictSet, assocLookup, Ne.symm h]
      · simp only [dictSet, if_neg hk, assocLookup]
        by_cases hn : k' = n
        · simp [hn]
        · simp [hn, ih]

theorem dictGetD_dictSet_self {α : Type} (m : List (String × α)) (k : String)
    (v d : α) : dictGetD (dictSet m k v) k d = v := by
  simp [dictGetD, assocLookup_dictSet_self]

theorem dictGetD_dictSet_ne {α : Type} (m : List (String × α)) (k : String)
    (v d : α) (n : String) (h : n ≠ k) :
    dictGetD (dictSet m k v) n d = dictGetD m n d := by
  simp [dictGetD, assocLookup_dictSet_ne m k v n h]

theorem assocLookup_filterMap_present (store : RevMap) (n : String) (v : Nat)
    (hs : assocLookup store n = some v) :
    ∀ names : List String, n ∈ names →
      assocLookup (names.filterMap (fun m =>
        match assocLookup store m with
        | some w => some (m, w)
        | none => none)) n = some v := by
  intro names
  induction names with
  | nil => intro h; simp at h
  | cons m rest ih =>
    intro hn
    by_cases hmn : m = n
    · subst hmn
      simp [List.filterMap_cons, hs, assocLookup]
    · have hn' : n ∈ rest := by
        rcases List.mem_cons.mp hn with h | h
        · exact absurd h.symm hmn
        · exact h
      cases hm : assocLookup store m with
      | some w => simp [List.filterMap_cons, hm, assocLookup, hmn, ih hn']
      | none => simp [List.filterMap_cons, hm, ih hn']

theorem assocLookup_filterMap_absent (store : RevMap) (n : String)
    (hs : assocLookup store n = none) :
    ∀ names : List String,
      assocLookup (names.filterMap (fun m =>
        match assocLookup store m with
        | some w => some (m, w)
        | none => none)) n = none := by
  intro names
  induction names with
  | nil => rfl
  | cons m rest ih =>
    by_cases hmn : m = n
    · subst hmn
      simp [List.filterMap_cons, hs, ih]
    · cases hm : assocLookup store m with
      | some w => simp [List.filterMap_cons, hm, assocLookup, hmn, ih]
      | none => simp [List.filterMap_cons, hm, ih]

theorem assocLookup_filterMap_zero (store : RevMap) (n : String)
    (hs : assocLookup store n = none) :
    ∀ names : List String, n ∈ names →
      assocLookup (names.filterMap (fun m =>
        match assocLookup store m with
        | some _ => none
        | none => some (m, 0))) n = some 0 := by
  intro names
  induction names with
  | nil => intro h; simp at h
  | cons m rest ih =>
    intro hn
    by_cases hmn : m = n
    · subst hmn
      simp [List.filterMap_cons, hs, assocLookup]
    · have hn' : n ∈ rest := by
        rcases List.mem_cons.mp hn with h | h
        · exact absurd h.symm hmn
        · exact h
      cases hm : assocLookup store m with
      | some w => simp [List.filterMap_cons, hm, ih hn']
      | none => simp [List.filterMap_cons, hm, assocLookup, hmn, ih hn']

theorem assocLookup_append {α : Type} (l1 l2 : List (String × α)) (k : String) :
    assocLookup (l1 ++ l2) k
      = match assocLookup l1 k with
        | some v => some v
        | none => assocLookup l2 k := by
  induction l1 with
  | nil => simp [assocLookup]
  | cons p rest ih =>
    cases p with
    | mk k' v' =>
      by_cases hk : k' = k
      · simp [assocLookup, hk]
      · simp [assocLookup, hk, ih]

/-- Reading the reloaded watermark map agrees with the persisted store
on every configured repository (missing entries default to 0 on both
sides). -/
theorem loadRevisions_getD (store : RevMap) (names : List String) (n : String)
    (hn : n ∈ names) :
    dictGetD (loadRevisions store names) n 0 = dictGetD store n 0 := by
  unfold loadRevisions dictGetD
  rw [assocLookup_append]
  cases hs : assocLookup store n with
  | some v => rw [assocLookup_filterMap_present store n v hs names hn]
  | none =>
    rw [assocLookup_filterMap_absent store n hs names,
      assocLookup_filterMap_zero store n hs names hn]
    rfl

/-! ## Shared lemmas about the per-repository check loop

The four branch equations of `checkOneRepo` (check raised / pending /
disabled advance / nothing new), and the fold lemmas built on them. -/

theorem checkRepos_cons (env : CycleEnv) (r : Repo) (rest : List Repo)
    (st : CycleState) :
    checkRepos env (r :: rest) st = checkRepos env rest (checkOneRepo env r st) := rfl

theorem checkOneRepo_of_latest_none (env : CycleEnv) (r : Repo) (st : CycleState)
    (h : env.latest r.name = none) :
    checkOneRepo env r st = { st with errors := st.errors ++ [r.name] } := by
  simp [checkOneRepo, h]

theorem checkOneRepo_of_pending (env : CycleEnv) (r : Repo) (st : CycleState)
    (l : Nat) (hl : env.latest r.name = some l)
    (hgt : l > dictGetD st.mem r.name 0) (hn : r.notify = true) :
    checkOneRepo env r st
      = { st with
          allChanges := st.allChanges
            ++ env.changes r.name (dictGetD st.mem r.name 0) l,
          toUpdate := st.toUpdate ++ [(r.name, dictGetD st.mem r.name 0, l)] } := by
  simp [checkOneRepo, hl, hgt, hn]

theorem checkOneRepo_of_disabled_advance (env : CycleEnv) (r : Repo)
    (st : CycleState) (l : Nat) (hl : env.latest r.name = some l)
    (hgt : l > dictGetD st.mem r.name 0) (hn : ¬ r.notify = true) :
    checkOneRepo env r st
      = { st with
          mem := dictSet st.mem r.name l,
          store := dictSet st.mem r.name l } := by
  simp [checkOneRepo, hl, hgt, hn]

theorem checkOneRepo_of_no_news (env : CycleEnv) (r : Repo) (st : CycleState)
    (l : Nat) (hl : env.latest r.name = some l)
    (hgt : ¬ l > dictGetD st.mem r.name 0) :
    checkOneRepo env r st = st := by
  simp [checkOneRepo, hl, hgt]

theorem checkOneRepo_mem_of_notify (env : CycleEnv) (r : Repo) (st : CycleState)
    (h : r.notify = true) : (checkOneRepo env r st).mem = st.mem := by
  cases hl : env.latest r.name with
  | none => rw [checkOneRepo_of_latest_none env r st hl]
  | some l =>
    by_cases hgt : l > dictGetD st.mem r.name 0
    · rw [checkOneRepo_of_pending env r st l hl hgt h]
    · rw [checkOneRepo_of_no_news env r st l hl hgt]

theorem checkOneRepo_mem_getD_ne (env : CycleEnv) (r : Repo) (st : CycleState)
    (n : String) (hne : n ≠ r.name) :
    dictGetD (checkOneRepo env r st).mem n 0 = dictGetD st.mem n 0 := by
  cases hl : env.latest r.name with
  | none => rw [checkOneRepo_of_latest_none env r st hl]
  | some l =>
    by_cases hgt : l > dictGetD st.mem r.name 0
    · by_cases hn : r.notify = true
      · rw [checkOneRepo_of_pending env r st l hl hgt hn]
      · rw [checkOneRepo_of_disabled_advance env r st l hl hgt hn]
        exact dictGetD_dictSet_ne st.mem r.name l 0 n hne
    · rw [checkOneRepo_of_no_news env r st l hl hgt]

theorem checkOneRepo_mem_getD_ge (env : CycleEnv) (r : Repo) (st : CycleState)
    (n : String) :
    dictGetD st.mem n 0 ≤ dictGetD (checkOneRepo env r st).mem n 0 := by
  cases hl : env.latest r.name with
  | none => rw [checkOneRepo_of_latest_none env r st hl]
  | some l =>
    by_cases hgt : l > dictGetD st.mem r.name 0
    · by_cases hn : r.notify = true
      · rw [checkOneRepo_of_pending env r st l hl hgt hn]
      · rw [checkOneRepo_of_disabled_advance env r st l hl hgt hn]
        by_cases hname : n = r.name
        · subst hname
          rw [dictGetD_dictSet_self]
          omega
        · rw [dictGetD_dictSet_ne st.mem r.name l 0 n hname]
    · rw [checkOneRepo_of_no_news env r st l hl hgt]

theorem checkOneRepo_store_mem_agree (env : CycleEnv) (r : Repo) (st : CycleState)
    (names : List String)
    (h : ∀ n ∈ names, dictGetD st.store n 0 = dictGetD st.mem n 0) :
    ∀ n ∈ names, dictGetD (checkOneRepo env r st).store n 0
      = dictGetD (checkOneRepo env r st).mem n 0 := by
  cases hl : env.latest r.name with
  | none => rw [checkOneRepo_of_latest_none env r st hl]; exact h
  | some l =>
    by_cases hgt : l > dictGetD st.mem r.name 0
    · by_cases hn : r.notify = true
      · rw [checkOneRepo_of_pending env r st l hl hgt hn]; exact h
      · rw [checkOneRepo_of_disabled_advance env r st l hl hgt hn]
        intro n _; rfl
    · rw [checkOneRepo_of_no_news env r st l hl hgt]; exact h

theorem checkOneRepo_toUpdate (env : CycleEnv) (r : Repo) (st : CycleState) :
    (checkOneRepo env r st).toUpdate
      = st.toUpdate ++
        (match env.latest r.name with
         | none => []
         | some l =>
           if r.notify = true ∧ l > dictGetD st.mem r.name 0 then
             [(r.name, dictGetD st.mem r.name 0, l)]
           else []) := by
  cases hl : env.latest r.name with
  | none => rw [checkOneRepo_of_latest_none env r st hl]; simp
  | some l =>
    by_cases hgt : l > dictGetD st.mem r.name 0
    · by_cases hn : r.notify = true
      · rw [checkOneRepo_of_pending env r st l hl hgt hn]
        simp [hn, hgt]
      · rw [checkOneRepo_of_disabled_advance env r st l hl hgt hn]
        simp [hn]
    · rw [checkOneRepo_of_no_news env r st l hl hgt]
      simp [hgt]

theorem toUpdateSpec_cons (env : CycleEnv) (r : Repo) (rest : List Repo)
    (m : RevMap) :
    toUpdateSpec env (r :: rest) m
      = (match env.latest r.name with
         | none => []
         | some l =>
           if r.notify = true ∧ l > dictGetD m r.name 0 then
             [(r.name, dictGetD m r.name 0, l)]
           else []) ++ toUpdateSpec env rest m := by
  simp only [toUpdateSpec, List.filterMap_cons]
  cases env.latest r.name with
  | none => simp
  | some l =>
    by_cases hc : r.notify = true ∧ l > dictGetD m r.name 0
    · simp [hc]
    · simp [hc]

theorem toUpdateSpec_congr (env : CycleEnv) (repos : List Repo) (m1 m2 : RevMap)
    (h : ∀ r ∈ repos, r.notify = true →
      dictGetD m1 r.name 0 = dictGetD m2 r.name 0) :
    toUpdateSpec env repos m1 = toUpdateSpec env repos m2 := by
  unfold toUpdateSpec
  apply List.filterMap_congr
  intro r' hr'
  cases hl : env.latest r'.name with
  | none => rfl
  | some l =>
    show (if r'.notify = true ∧ l > dictGetD m1 r'.name 0 then
        some (r'.name, dictGetD m1 r'.name 0, l) else none)
      = (if r'.notify = true ∧ l > dictGetD m2 r'.name 0 then
        some (r'.name, dictGetD m2 r'.name 0, l) else none)
    by_cases hn : r'.notify = true
    · rw [h r' hr' hn]
    · rw [if_neg (fun hc => hn hc.1), if_neg (fun hc => hn hc.1)]

theorem checkRepos_mem_getD_not_mem (env : CycleEnv) (repos : List Repo) :
    ∀ (st : CycleState) (n : String), n ∉ repos.map Repo.name →
      dictGetD (checkRepos env repos st).mem n 0 = dictGetD st.mem n 0 := by
  induction repos with
  | nil => intro st n _; rfl
  | cons r rest ih =>
    intro st n hn
    rw [List.map_cons, List.mem_cons, not_or] at hn
    rw [checkRepos_cons, ih (checkOneRepo env r st) n hn.2,
      checkOneRepo_mem_getD_ne env r st n hn.1]

theorem checkRepos_mem_getD_ge (env : CycleEnv) (repos : List Repo) :
    ∀ (st : CycleState) (n : String),
      dictGetD st.mem n 0 ≤ dictGetD (checkRepos env repos st).mem n 0 := by
  induction repos with
  | nil => intro st n; exact le_refl _
  | cons r rest ih =>
    intro st n
    rw [checkRepos_cons]
    exact le_trans (checkOneRepo_mem_getD_ge env r st n) (ih (checkOneRepo env r st) n)

theorem checkRepos_store_mem_agree (env : CycleEnv) (repos : List Repo)
    (names : List String) :
    ∀ st : CycleState,
      (∀ n ∈ names, dictGetD st.store n 0 = dictGetD st.mem n 0) →
      ∀ n ∈ names, dictGetD (checkRepos env repos st).store n 0
        = dictGetD (checkRepos env repos st).mem n 0 := by
  induction repos with
  | nil => intro st h; exact h
  | cons r rest ih =>
    intro st h
    rw [checkRepos_cons]
    exact ih (checkOneRepo env r st) (checkOneRepo_store_mem_agree env r st names h)

theorem checkRepos_mem_getD_notify (env : CycleEnv) (repos : List Repo) (r : Repo)
    (hnodup : (repos.map Repo.name).Nodup) (hr : r ∈ repos)
    (hnotify : r.notify = true) :
    ∀ st : CycleState,
      dictGetD (checkRepos env repos st).mem r.name 0 = dictGetD st.mem r.name 0 := by
  induction repos with
  | nil => exact absurd hr (List.not_mem_nil r)
  | cons r' rest ih =>
    intro st
    rw [List.map_cons, List.nodup_cons] at hnodup
    rw [checkRepos_cons]
    rcases List.mem_cons.mp hr with rfl | hr'
    · have hnm : r.name ∉ rest.map Repo.name := hnodup.1
      rw [checkRepos_mem_getD_not_mem env rest (checkOneRepo env r st) r.name hnm]
      rw [checkOneRepo_mem_of_notify env r st hnotify]
    · have hne : r.name ≠ r'.name := by
        intro he
        exact hnodup.1 (he ▸ List.mem_map_of_mem Repo.name hr')
      rw [ih hnodup.2 hr' (checkOneRepo env r' st),
        checkOneRepo_mem_getD_ne env r' st r.name hne]

theorem checkRepos_toUpdate_spec (env : CycleEnv) (repos : List Repo)
    (hnodup : (repos.map Repo.name).Nodup) :
    ∀ st : CycleState,
      (checkRepos env repos st).toUpdate
        = st.toUpdate ++ toUpdateSpec env repos st.mem := by
  induction repos with
  | nil =>
    intro st
    show st.toUpdate = st.toUpdate ++ toUpdateSpec env [] st.mem
    simp [toUpdateSpec]
  | cons r rest ih =>
    intro st
    rw [List.map_cons, List.nodup_cons] at hnodup
    rw [checkRepos_cons, ih hnodup.2 (checkOneRepo env r st),
      checkOneRepo_toUpdate, toUpdateSpec_cons, List.append_assoc]
    have hcongr : toUpdateSpec env rest (checkOneRepo env r st).mem
        = toUpdateSpec env rest st.mem := by
      apply toUpdateSpec_congr
      intro r' hr' _
      have hne : r'.name ≠ r.name := by
        intro he
        exact hnodup.1 (he ▸ List.mem_map_of_mem Repo.name hr')
      exact checkOneRepo_mem_getD_ne env r st r'.name hne
    rw [hcongr]

theorem checkRepos_mem_change (env : CycleEnv) (repos : List Repo) :
    (repos.map Repo.name).Nodup →
    ∀ (st : CycleState) (n : String),
      dictGetD (checkRepos env repos st).mem n 0 ≠ dictGetD st.mem n 0 →
      ∃ r, r ∈ repos ∧ r.name = n ∧ r.notify = false ∧
        ∃ l, env.latest n = some l ∧ l > dictGetD st.mem n 0 ∧
          dictGetD (checkRepos env repos st).mem n 0 = l := by
  induction repos with
  | nil => intro _ st n hne; exact absurd rfl hne
  | cons r rest ih =>
    intro hnodup st n hne
    rw [List.map_cons, List.nodup_cons] at hnodup
    rw [checkRepos_cons] at hne
    by_cases hname : n = r.name
    · subst hname
      have hrest : dictGetD (checkRepos env rest (checkOneRepo env r st)).mem
            r.name 0
          = dictGetD (checkOneRepo env r st).mem r.name 0 :=
        checkRepos_mem_getD_not_mem env rest (checkOneRepo env r st) r.name hnodup.1
      rw [checkRepos_cons, hrest]
      rw [hrest] at hne
      cases hl : env.latest r.name with
      | none =>
        rw [checkOneRepo_of_latest_none env r st hl] at hne
        exact absurd rfl hne
      | some l =>
        by_cases hgt : l > dictGetD st.mem r.name 0
        · by_cases hnot : r.notify = true
          · rw [checkOneRepo_mem_of_notify env r st hnot] at hne
            exact absurd rfl hne
          · have hfalse : r.notify = false := by
              cases h : r.notify
              · rfl
              · exact absurd h hnot
            refine ⟨r, List.mem_cons_self _ _, rfl, hfalse, l, rfl, hgt, ?_⟩
            rw [checkOneRepo_of_disabled_advance env r st l hl hgt hnot,
              dictGetD_dictSet_self]
        · rw [checkOneRepo_of_no_news env r st l hl hgt] at hne
          exact absurd rfl hne
    · have h1 : dictGetD (checkOneRepo env r st).mem n 0 = dictGetD st.mem n 0 :=
        checkOneRepo_mem_getD_ne env r st n hname
      have hne' : dictGetD (checkRepos env rest (checkOneRepo env r st)).mem n 0
          ≠ dictGetD (checkOneRepo env r st).mem n 0 := by
        rw [h1]; exact hne
      obtain ⟨r', hr', hname', hnot', l, hl, hgt, hfinal⟩ :=
        ih hnodup.2 (checkOneRepo env r st) n hne'
      refine ⟨r', List.mem_cons_of_mem _ hr', hname', hnot', l, hl, ?_, ?_⟩
      · rw [← h1]; exact hgt
      · rw [checkRepos_cons]; exact hfinal

/-! ## Shared lemmas about the dispatch-and-commit phase -/

theorem dispatchPhase_of_empty (env : CycleEnv) (names : List String)
    (st : CycleState) (h : st.allChanges = []) :
    dispatchPhase env names st = st := by
  unfold dispatchPhase
  rw [h]

theorem dispatchPhase_of_fail (env : CycleEnv) (names : List String)
    (st : CycleState) (h1 : st.allChanges ≠ []) (h2 : env.dispatchOk = false) :
    dispatchPhase env names st
      = { st with mem := loadRevisions st.store names } := by
  unfold dispatchPhase
  cases hc : st.allChanges with
  | nil => exact absurd hc h1
  | cons c cs => simp [h2]

theorem dispatchPhase_of_ok (env : CycleEnv) (names : List String)
    (st : CycleState) (h1 : st.allChanges ≠ []) (h2 : env.dispatchOk = true) :
    dispatchPhase env names st
      = { st with
          mem := st.toUpdate.foldl (fun m u => dictSet m u.1 u.2.2) st.mem,
          store := st.toUpdate.foldl (fun m u => dictSet m u.1 u.2.2) st.mem } := by
  unfold dispatchPhase
  cases hc : st.allChanges with
  | nil => exact absurd hc h1
  | cons c cs => simp [h2]

theorem bool_eq_false_of_ne_true {b : Bool} (h : ¬ b = true) : b = false := by
  cases hb : b
  · rfl
  · exact absurd hb h

theorem dispatchPhase_allChanges (env : CycleEnv) (names : List String)
    (st : CycleState) :
    (dispatchPhase env names st).allChanges = st.allChanges := by
  cases hc : st.allChanges with
  | nil => rw [dispatchPhase_of_empty env names st hc]; exact hc
  | cons c cs =>
    have hne : st.allChanges ≠ [] := by rw [hc]; simp
    by_cases h : env.dispatchOk = true
    · rw [dispatchPhase_of_ok env names st hne h]; exact hc
    · rw [dispatchPhase_of_fail env names st hne (bool_eq_false_of_ne_true h)]
      exact hc

theorem dispatchPhase_toUpdate (env : CycleEnv) (names : List String)
    (st : CycleState) :
    (dispatchPhase env names st).toUpdate = st.toUpdate := by
  cases hc : st.allChanges with
  | nil => rw [dispatchPhase_of_empty env names st hc]
  | cons c cs =>
    have hne : st.allChanges ≠ [] := by rw [hc]; simp
    by_cases h : env.dispatchOk = true
    · rw [dispatchPhase_of_ok env names st hne h]
    · rw [dispatchPhase_of_fail env names st hne (bool_eq_false_of_ne_true h)]

theorem foldl_dictSet_getD_not_mem (ups : List (String × Nat × Nat)) :
    ∀ (m : RevMap) (n : String), n ∉ ups.map (fun u => u.1) →
      dictGetD (ups.foldl (fun m u => dictSet m u.1 u.2.2) m) n 0
        = dictGetD m n 0 := by
  induction ups with
  | nil => intro m n _; rfl
  | cons u rest ih =>
    intro m n hn
    rw [List.map_cons, List.mem_cons, not_or] at hn
    rw [List.foldl_cons, ih (dictSet m u.1 u.2.2) n hn.2,
      dictGetD_dictSet_ne m u.1 u.2.2 0 n hn.1]

theorem foldl_dictSet_getD_mem (ups : List (String × Nat × Nat)) :
    ∀ (m : RevMap) (n : String) (a b : Nat),
      (ups.map (fun u => u.1)).Nodup → (n, a, b) ∈ ups →
      dictGetD (ups.foldl (fun m u => dictSet m u.1 u.2.2) m) n 0 = b := by
  induction ups with
  | nil => intro m n a b _ hmem; exact absurd hmem (List.not_mem_nil _)
  | cons u rest ih =>
    intro m n a b hnodup hmem
    rw [List.map_cons, List.nodup_cons] at hnodup
    rcases List.mem_cons.mp hmem with rfl | hmem'
    · rw [List.foldl_cons]
      rw [foldl_dictSet_getD_not_mem rest (dictSet m n b) n hnodup.1]
      exact dictGetD_dictSet_self m n b 0
    · rw [List.foldl_cons]
      exact ih (dictSet m u.1 u.2.2) n a b hnodup.2 hmem'

theorem toUpdateSpec_cons_none (env : CycleEnv) (r : Repo) (rest : List Repo)
    (m : RevMap) (h : env.latest r.name = none) :
    toUpdateSpec env (r :: rest) m = toUpdateSpec env rest m := by
  simp [toUpdateSpec, List.filterMap_cons, h]

theorem toUpdateSpec_cons_hit (env : CycleEnv) (r : Repo) (rest : List Repo)
    (m : RevMap) (l : Nat) (h : env.latest r.name = some l)
    (hc : r.notify = true ∧ l > dictGetD m r.name 0) :
    toUpdateSpec env (r :: rest) m
      = (r.name, dictGetD m r.name 0, l) :: toUpdateSpec env rest m := by
  simp [toUpdateSpec, List.filterMap_cons, h, hc]

theorem toUpdateSpec_cons_miss (env : CycleEnv) (r : Repo) (rest : List Repo)
    (m : RevMap) (l : Nat) (h : env.latest r.name = some l)
    (hc : ¬ (r.notify = true ∧ l > dictGetD m r.name 0)) :
    toUpdateSpec env (r :: rest) m = toUpdateSpec env rest m := by
  simp only [toUpdateSpec, List.filterMap_cons, h]
  rw [if_neg hc]

theorem toUpdateSpec_keys_sublist (env : CycleEnv) (repos : List Repo)
    (m : RevMap) :
    ((toUpdateSpec env repos m).map (fun u => u.1)).Sublist
      (repos.map Repo.name) := by
  induction repos with
  | nil => exact List.Sublist.refl _
  | cons r rest ih =>
    rw [List.map_cons]
    cases hl : env.latest r.name with
    | none =>
      rw [toUpdateSpec_cons_none env r rest m hl]
      exact List.Sublist.cons _ ih
    | some l =>
      by_cases hc : r.notify = true ∧ l > dictGetD m r.name 0
      · rw [toUpdateSpec_cons_hit env r rest m l hl hc, List.map_cons]
        exact List.Sublist.cons₂ _ ih
      · rw [toUpdateSpec_cons_miss env r rest m l hl hc]
        exact List.Sublist.cons _ ih

theorem toUpdateSpec_mem (env : CycleEnv) (repos : List Repo) (m : RevMap)
    (n : String) (a b : Nat) (hmem : (n, a, b) ∈ toUpdateSpec env repos m) :
    ∃ r, r ∈ repos ∧ r.name = n ∧ r.notify = true ∧ env.latest n = some b ∧
      a = dictGetD m n 0 ∧ b > a := by
  induction repos with
  | nil => exact absurd hmem (List.not_mem_nil _)
  | cons r rest ih =>
    cases hl : env.latest r.name with
    | none =>
      rw [toUpdateSpec_cons_none env r rest m hl] at hmem
      obtain ⟨r', h1, h2, h3, h4, h5, h6⟩ := ih hmem
      exact ⟨r', List.mem_cons_of_mem _ h1, h2, h3, h4, h5, h6⟩
    | some l =>
      by_cases hc : r.notify = true ∧ l > dictGetD m r.name 0
      · rw [toUpdateSpec_cons_hit env r rest m l hl hc] at hmem
        rcases List.mem_cons.mp hmem with heq | hmem'
        · have h1 : r.name = n := congrArg Prod.fst heq.symm
          have h2 : dictGetD m r.name 0 = a := congrArg (fun p => p.2.1) heq.symm
          have h3 : l = b := congrArg (fun p => p.2.2) heq.symm
          subst h1; subst h3
          exact ⟨r, List.mem_cons_self _ _, rfl, hc.1, hl, h2.symm, h2 ▸ hc.2⟩
        · obtain ⟨r', h1, h2, h3, h4, h5, h6⟩ := ih hmem'
          exact ⟨r', List.mem_cons_of_mem _ h1, h2, h3, h4, h5, h6⟩
      · rw [toUpdateSpec_cons_miss env r rest m l hl hc] at hmem
        obtain ⟨r', h1, h2, h3, h4, h5, h6⟩ := ih hmem
        exact ⟨r', List.mem_cons_of_mem _ h1, h2, h3, h4, h5, h6⟩

/-! ## Shared lemmas about one full cycle -/

theorem cycleStart_mem (repos : List Repo) (store0 : RevMap) :
    (cycleStart repos store0).mem = loadRevisions store0 (repos.map Repo.name) := rfl

theorem cycleStart_store (repos : List Repo) (store0 : RevMap) :
    (cycleStart repos store0).store = store0 := rfl

theorem runCycle_def (repos : List Repo) (env : CycleEnv) (store0 : RevMap) :
    runCycle repos env store0
      = dispatchPhase env (repos.map Repo.name)
          (checkRepos env repos (cycleStart repos store0)) := rfl

/-- The persisted store and the in-memory map agree on every configured
repository throughout phase 1 of a cycle. -/
theorem cycle_phase1_agree (repos : List Repo) (env : CycleEnv) (store0 : RevMap) :
    ∀ n ∈ repos.map Repo.name,
      dictGetD (checkRepos env repos (cycleStart repos store0)).store n 0
      = dictGetD (checkRepos env repos (cycleStart repos store0)).mem n 0 := by
  apply checkRepos_store_mem_agree
  intro n hn
  rw [cycleStart_mem, cycleStart_store]
  exact (loadRevisions_getD store0 (repos.map Repo.name) n hn).symm

/-- The pending set computed by phase 1 of a cycle, against the store
read at cycle start. -/
theorem checkRepos_cycle_toUpdate (repos : List Repo) (env : CycleEnv)
    (store0 : RevMap) (hnodup : (repos.map Repo.name).Nodup) :
    (checkRepos env repos (cycleStart repos store0)).toUpdate
      = toUpdateSpec env repos store0 := by
  rw [checkRepos_toUpdate_spec env repos hnodup]
  show [] ++ toUpdateSpec env repos (cycleStart repos store0).mem = _
  rw [List.nil_append, cycleStart_mem]
  apply toUpdateSpec_congr
  intro r hr _
  exact loadRevisions_getD store0 _ r.name (List.mem_map_of_mem Repo.name hr)

/-- The pending set of a full cycle, against the store read at cycle
start. -/
theorem runCycle_toUpdate_store (repos : List Repo) (env : CycleEnv)
    (store0 : RevMap) (hnodup : (repos.map Repo.name).Nodup) :
    (runCycle repos env store0).toUpdate = toUpdateSpec env repos store0 := by
  rw [runCycle_def, dispatchPhase_toUpdate]
  exact checkRepos_cycle_toUpdate repos env store0 hnodup

/-- After a cycle in which the pending repositories were not committed
(dispatch failed, or dispatch never ran), the persisted watermark of a
notification-enabled repository is unchanged. -/
theorem runCycle_store_getD_notify_of_not_committed (repos : List Repo)
    (env : CycleEnv) (store0 : RevMap) (r : Repo)
    (hnodup : (repos.map Repo.name).Nodup) (hr : r ∈ repos)
    (hnotify : r.notify = true)
    (hnc : (runCycle repos env store0).allChanges = [] ∨ env.dispatchOk = false) :
    dictGetD (runCycle repos env store0).store r.name 0
      = dictGetD store0 r.name 0 := by
  have hrn : r.name ∈ repos.map Repo.name := List.mem_map_of_mem Repo.name hr
  have hst1 : dictGetD (checkRepos env repos (cycleStart repos store0)).store
      r.name 0 = dictGetD store0 r.name 0 := by
    rw [cycle_phase1_agree repos env store0 r.name hrn,
      checkRepos_mem_getD_notify env repos r hnodup hr hnotify, cycleStart_mem]
    exact loadRevisions_getD store0 (repos.map Repo.name) r.name hrn
  rw [runCycle_def] at hnc ⊢
  rw [dispatchPhase_allChanges] at hnc
  rcases hnc with hempty | hfail
  · rw [dispatchPhase_of_empty env (repos.map Repo.name) _ hempty]
    exact hst1
  · by_cases hempty : (checkRepos env repos (cycleStart repos store0)).allChanges = []
    · rw [dispatchPhase_of_empty env (repos.map Repo.name) _ hempty]
      exact hst1
    · rw [dispatchPhase_of_fail env (repos.map Repo.name) _ hempty hfail]
      exact hst1

theorem dispatchPhase_store_getD_ge (env : CycleEnv) (names : List String)
    (st : CycleState) (n : String)
    (hagree : dictGetD st.store n 0 = dictGetD st.mem n 0)
    (hkeys : (st.toUpdate.map (fun u => u.1)).Nodup)
    (hupds : ∀ u ∈ st.toUpdate, dictGetD st.mem u.1 0 ≤ u.2.2) :
    dictGetD st.mem n 0 ≤ dictGetD (dispatchPhase env names st).store n 0 := by
  cases hc : st.allChanges with
  | nil =>
    rw [dispatchPhase_of_empty env names st hc]
    exact le_of_eq hagree.symm
  | cons c cs =>
    have hne : st.allChanges ≠ [] := by rw [hc]; simp
    by_cases hok : env.dispatchOk = true
    · rw [dispatchPhase_of_ok env names st hne hok]
      show dictGetD st.mem n 0
        ≤ dictGetD (st.toUpdate.foldl (fun m u => dictSet m u.1 u.2.2) st.mem) n 0
      by_cases hmemk : n ∈ st.toUpdate.map (fun u => u.1)
      · obtain ⟨u, hu, hu1⟩ := List.mem_map.mp hmemk
        obtain ⟨u1, ua, ub⟩ := u
        have hu1' : u1 = n := hu1
        subst hu1'
        rw [foldl_dictSet_getD_mem st.toUpdate st.mem u1 ua ub hkeys hu]
        exact hupds (u1, ua, ub) hu
      · rw [foldl_dictSet_getD_not_mem st.toUpdate st.mem n hmemk]
    · rw [dispatchPhase_of_fail env names st hne (bool_eq_false_of_ne_true hok)]
      exact le_of_eq hagree.symm

/-- Monotonicity of one cycle: the persisted watermark of a configured
repository never decreases. -/
theorem runCycle_store_getD_ge (repos : List Repo) (env : CycleEnv)
    (store0 : RevMap) (hnodup : (repos.map Repo.name).Nodup) (n : String)
    (hn : n ∈ repos.map Repo.name) :
    dictGetD store0 n 0 ≤ dictGetD (runCycle repos env store0).store n 0 := by
  have hupd := checkRepos_cycle_toUpdate repos env store0 hnodup
  have hge1 : dictGetD store0 n 0
      ≤ dictGetD (checkRepos env repos (cycleStart repos store0)).mem n 0 := by
    have hstep := checkRepos_mem_getD_ge env repos (cycleStart repos store0) n
    rw [cycleStart_mem, loadRevisions_getD store0 (repos.map Repo.name) n hn]
      at hstep
    exact hstep
  refine le_trans hge1 ?_
  rw [runCycle_def]
  apply dispatchPhase_store_getD_ge
  · exact cycle_phase1_agree repos env store0 n hn
  · rw [hupd]
    exact List.Nodup.sublist (toUpdateSpec_keys_sublist env repos store0) hnodup
  · intro u hu
    rw [hupd] at hu
    obtain ⟨u1, ua, ub⟩ := u
    obtain ⟨r', hr', hname', hnot', hl', ha', hb'⟩ :=
      toUpdateSpec_mem env repos store0 u1 ua ub hu
    have hmem1 : dictGetD (checkRepos env repos (cycleStart repos store0)).mem
        u1 0 = dictGetD store0 u1 0 := by
      rw [← hname',
        checkRepos_mem_getD_notify env repos r' hnodup hr' hnot', cycleStart_mem]
      exact loadRevisions_getD store0 (repos.map Repo.name) r'.name
        (List.mem_map_of_mem Repo.name hr')
    show dictGetD (checkRepos env repos (cycleStart repos store0)).mem u1 0 ≤ ub
    rw [hmem1, ← ha']
    omega

/-- Gating of one cycle: a configured repository whose persisted
watermark changed was either notification-disabled (advanced in
phase 1), or notification-enabled and committed by a successful
dispatch of a nonempty aggregated payload; either way the new value is
the observed latest revision, strictly above the old watermark. -/
theorem runCycle_advance_cases (repos : List Repo) (env : CycleEnv)
    (store0 : RevMap) (n : String) (hnodup : (repos.map Repo.name).Nodup)
    (hn : n ∈ repos.map Repo.name)
    (hne : dictGetD (runCycle repos env store0).store n 0
      ≠ dictGetD store0 n 0) :
    ∃ r, r ∈ repos ∧ r.name = n ∧
      (∃ l, env.latest n = some l ∧
        dictGetD (runCycle repos env store0).store n 0 = l ∧
        l > dictGetD store0 n 0) ∧
      (r.notify = false ∨ (r.notify = true ∧ env.dispatchOk = true
        ∧ (runCycle repos env store0).allChanges ≠ [])) := by
  have hupd := checkRepos_cycle_toUpdate repos env store0 hnodup
  have hagree := cycle_phase1_agree repos env store0 n hn
  have hmemX : dictGetD (cycleStart repos store0).mem n 0
      = dictGetD store0 n 0 := by
    rw [cycleStart_mem]
    exact loadRevisions_getD store0 (repos.map Repo.name) n hn
  have hdisabled :
      dictGetD (checkRepos env repos (cycleStart repos store0)).mem n 0
        ≠ dictGetD store0 n 0 →
      ∃ r, r ∈ repos ∧ r.name = n ∧ r.notify = false ∧
        ∃ l, env.latest n = some l ∧ l > dictGetD store0 n 0 ∧
          dictGetD (checkRepos env repos (cycleStart repos store0)).mem n 0 = l := by
    intro hchg
    have hchg' : dictGetD (checkRepos env repos (cycleStart repos store0)).mem n 0
        ≠ dictGetD (cycleStart repos store0).mem n 0 := by
      rw [hmemX]
      exact hchg
    obtain ⟨r, hr, hname, hnot, l, hl, hgt, hfinal⟩ :=
      checkRepos_mem_change env repos hnodup _ n hchg'
    rw [hmemX] at hgt
    exact ⟨r, hr, hname, hnot, l, hl, hgt, hfinal⟩
  rw [runCycle_def] at hne ⊢
  cases hc : (checkRepos env repos (cycleStart repos store0)).allChanges with
  | nil =>
    rw [dispatchPhase_of_empty env (repos.map Repo.name) _ hc] at hne ⊢
    rw [hagree] at hne ⊢
    obtain ⟨r, hr, hname, hnot, l, hl, hgt, hfinal⟩ := hdisabled hne
    exact ⟨r, hr, hname, ⟨l, hl, hfinal, hgt⟩, Or.inl hnot⟩
  | cons c cs =>
    have hcne : (checkRepos env repos (cycleStart repos store0)).allChanges
        ≠ [] := by
      rw [hc]; simp
    by_cases hok : env.dispatchOk = true
    · have hstoreF : (dispatchPhase env (repos.map Repo.name)
          (checkRepos env repos (cycleStart repos store0))).store
          = (checkRepos env repos (cycleStart repos store0)).toUpdate.foldl
            (fun m u => dictSet m u.1 u.2.2)
            (checkRepos env repos (cycleStart repos store0)).mem := by
        rw [dispatchPhase_of_ok env (repos.map Repo.name) _ hcne hok]
      have hallF : (dispatchPhase env (repos.map Repo.name)
          (checkRepos env repos (cycleStart repos store0))).allChanges
          = (checkRepos env repos (cycleStart repos store0)).allChanges :=
        dispatchPhase_allChanges env (repos.map Repo.name) _
      rw [hstoreF] at hne ⊢
      by_cases hmemk : n ∈ ((checkRepos env repos
          (cycleStart repos store0)).toUpdate.map (fun u => u.1))
      · obtain ⟨u, hu, hu1⟩ := List.mem_map.mp hmemk
        obtain ⟨u1, ua, ub⟩ := u
        have hu1' : u1 = n := hu1
        subst hu1'
        have hkeys : (((checkRepos env repos
            (cycleStart repos store0)).toUpdate).map (fun u => u.1)).Nodup := by
          rw [hupd]
          exact List.Nodup.sublist (toUpdateSpec_keys_sublist env repos store0)
            hnodup
        have hluk := foldl_dictSet_getD_mem
          (checkRepos env repos (cycleStart repos store0)).toUpdate
          (checkRepos env repos (cycleStart repos store0)).mem u1 ua ub hkeys hu
        rw [hupd] at hu
        obtain ⟨r', hr', hname', hnot', hl', ha', hb'⟩ :=
          toUpdateSpec_mem env repos store0 u1 ua ub hu
        refine ⟨r', hr', hname', ⟨ub, hl', hluk, ?_⟩, Or.inr ⟨hnot', hok, ?_⟩⟩
        · rw [← ha']
          exact hb'
        · rw [hallF]
          exact hcne
      · rw [foldl_dictSet_getD_not_mem _ _ n hmemk] at hne ⊢
        obtain ⟨r, hr, hname, hnot, l, hl, hgt, hfinal⟩ := hdisabled hne
        exact ⟨r, hr, hname, ⟨l, hl, hfinal, hgt⟩, Or.inl hnot⟩
    · rw [dispatchPhase_of_fail env (repos.map Repo.name) _ hcne
        (bool_eq_false_of_ne_true hok)] at hne ⊢
      rw [hagree] at hne ⊢
      obtain ⟨r, hr, hname, hnot, l, hl, hgt, hfinal⟩ := hdisabled hne
      exact ⟨r, hr, hname, ⟨l, hl, hfinal, hgt⟩, Or.inl hnot⟩

/-! ## Shared lemmas about the commit hook and operation sequences -/

/-- Exhaustive case analysis of `process_commit`: either the store is
returned unchanged with no dispatch attempt, or the revision is new
and the watermark is set to it — with zero dispatch attempts when
notifications are disabled or the retrieved change list is empty, and
with one successful dispatch otherwise; a failed dispatch leaves the
store unchanged after its one attempt. -/
theorem processCommit_cases (r : Repo) (names : List String) (store0 : RevMap)
    (g : Nat → Nat → List ChangeRecord) (ok : Bool) (rev : Nat) :
    processCommit r names store0 g ok rev = (store0, 0) ∨
    (rev > dictGetD (loadRevisions store0 names) r.name 0 ∧
      ((processCommit r names store0 g ok rev
          = (dictSet (loadRevisions store0 names) r.name rev, 0) ∧
        (r.notify = false ∨
          g (dictGetD (loadRevisions store0 names) r.name 0) rev = [])) ∨
       (processCommit r names store0 g ok rev
          = (dictSet (loadRevisions store0 names) r.name rev, 1) ∧
        r.notify = true ∧ ok = true) ∨
       (processCommit r names store0 g ok rev = (store0, 1) ∧
        r.notify = true ∧ ok = false))) := by
  simp only [processCommit]
  by_cases hrev : rev > dictGetD (loadRevisions store0 names) r.name 0
  · rw [if_pos hrev]
    cases hnot : r.notify with
    | false =>
      cases hchs : g (dictGetD (loadRevisions store0 names) r.name 0) rev with
      | nil => exact Or.inr ⟨hrev, Or.inl ⟨rfl, Or.inl rfl⟩⟩
      | cons c cs => exact Or.inr ⟨hrev, Or.inl ⟨rfl, Or.inl rfl⟩⟩
    | true =>
      cases hchs : g (dictGetD (loadRevisions store0 names) r.name 0) rev with
      | nil => exact Or.inr ⟨hrev, Or.inl ⟨rfl, Or.inr rfl⟩⟩
      | cons c cs =>
        cases hok : ok with
        | true => exact Or.inr ⟨hrev, Or.inr (Or.inl ⟨rfl, rfl, rfl⟩)⟩
        | false => exact Or.inr ⟨hrev, Or.inr (Or.inr ⟨rfl, rfl, rfl⟩)⟩
  · rw [if_neg hrev]
    exact Or.inl rfl

/-- Monotonicity of one hook commit: the persisted watermark of a
configured repository never decreases. -/
theorem processCommit_store_getD_ge (r : Repo) (names : List String)
    (store0 : RevMap) (g : Nat → Nat → List ChangeRecord) (ok : Bool)
    (rev : Nat) (n : String) (hn : n ∈ names) :
    dictGetD store0 n 0
      ≤ dictGetD (processCommit r names store0 g ok rev).1 n 0 := by
  have hload : dictGetD (loadRevisions store0 names) n 0 = dictGetD store0 n 0 :=
    loadRevisions_getD store0 names n hn
  have hset : rev > dictGetD (loadRevisions store0 names) r.name 0 →
      dictGetD store0 n 0
        ≤ dictGetD (dictSet (loadRevisions store0 names) r.name rev) n 0 := by
    intro hrev
    by_cases hname : n = r.name
    · subst hname
      rw [dictGetD_dictSet_self]
      rw [hload] at hrev
      exact le_of_lt hrev
    · rw [dictGetD_dictSet_ne _ _ _ _ n hname, hload]
  rcases processCommit_cases r names store0 g ok rev with h | ⟨hrev, hc⟩
  · rw [h]
  · rcases hc with ⟨h, _⟩ | ⟨h, _⟩ | ⟨h, _⟩
    · rw [h]; exact hset hrev
    · rw [h]; exact hset hrev
    · rw [h]

/-- Gating of one hook commit: a configured repository whose persisted
watermark changed is the hooked repository, the new value is the hook
revision, strictly above the old watermark, and either notifications
were disabled (zero dispatch attempts), the retrieved change list was
empty (zero dispatch attempts), or the single dispatch succeeded. -/
theorem processCommit_advance_cases (r : Repo) (names : List String)
    (store0 : RevMap) (g : Nat → Nat → List ChangeRecord) (ok : Bool)
    (rev : Nat) (n : String) (hn : n ∈ names)
    (hne : dictGetD (processCommit r names store0 g ok rev).1 n 0
      ≠ dictGetD store0 n 0) :
    n = r.name ∧
    dictGetD (processCommit r names store0 g ok rev).1 n 0 = rev ∧
    rev > dictGetD store0 n 0 ∧
    ((r.notify = false ∧ (processCommit r names store0 g ok rev).2 = 0) ∨
     (g (dictGetD store0 n 0) rev = [] ∧
       (processCommit r names store0 g ok rev).2 = 0) ∨
     (r.notify = true ∧ ok = true ∧
       (processCommit r names store0 g ok rev).2 = 1)) := by
  have hload : dictGetD (loadRevisions store0 names) n 0 = dictGetD store0 n 0 :=
    loadRevisions_getD store0 names n hn
  rcases processCommit_cases r names store0 g ok rev with h | ⟨hrev, hc⟩
  · rw [h] at hne
    exact absurd rfl hne
  · have hname : n = r.name := by
      by_contra hname
      rcases hc with ⟨h, _⟩ | ⟨h, _⟩ | ⟨h, _⟩
      · rw [h] at hne
        exact hne (by rw [dictGetD_dictSet_ne _ _ _ _ n hname]; exact hload)
      · rw [h] at hne
        exact hne (by rw [dictGetD_dictSet_ne _ _ _ _ n hname]; exact hload)
      · rw [h] at hne
        exact absurd rfl hne
    subst hname
    rw [hload] at hrev
    rcases hc with ⟨h, hz⟩ | ⟨h, hnotify, hok⟩ | ⟨h, hnotify, hok⟩
    · refine ⟨rfl, ?_, hrev, ?_⟩
      · rw [h]; exact dictGetD_dictSet_self _ _ _ _
      · rcases hz with hz | hz
        · exact Or.inl ⟨hz, by rw [h]⟩
        · refine Or.inr (Or.inl ⟨?_, by rw [h]⟩)
          rw [← hload]
          exact hz
    · exact ⟨rfl, by rw [h]; exact dictGetD_dictSet_self _ _ _ _, hrev,
        Or.inr (Or.inr ⟨hnotify, hok, by rw [h]⟩)⟩
    · rw [h] at hne
      exact absurd rfl hne

/-- Monotonicity over any sequence of cycles and hook commits. -/
theorem runOps_store_getD_ge (repos : List Repo) (ops : List MonitorOp)
    (hnodup : (repos.map Repo.name).Nodup) (n : String)
    (hn : n ∈ repos.map Repo.name) :
    ∀ store0 : RevMap,
      dictGetD store0 n 0 ≤ dictGetD (runOps repos ops store0) n 0 := by
  induction ops with
  | nil => intro store0; exact le_refl _
  | cons op rest ih =>
    intro store0
    have hstep : dictGetD store0 n 0 ≤ dictGetD (applyOp repos store0 op) n 0 := by
      cases op with
      | cycle env => exact runCycle_store_getD_ge repos env store0 hnodup n hn
      | hook r g ok rev =>
        exact processCommit_store_getD_ge r (repos.map Repo.name) store0 g ok rev n hn
    exact le_trans hstep (ih (applyOp repos store0 op))

/-- The aggregated payload of a cycle is the payload computed by its
per-repository phase. -/
theorem runCycle_allChanges_checkRepos (repos : List Repo) (env : CycleEnv)
    (store0 : RevMap) :
    (runCycle repos env store0).allChanges
      = (checkRepos env repos (cycleStart repos store0)).allChanges := by
  rw [runCycle_def]
  exact dispatchPhase_allChanges env (repos.map Repo.name) _

/-- After a failed dispatch of a nonempty payload, the in-memory
watermark map is exactly the reload of the (unwritten) persisted
store. -/
theorem runCycle_mem_reload_of_fail (repos : List Repo) (env : CycleEnv)
    (store0 : RevMap)
    (hall : (runCycle repos env store0).allChanges ≠ [])
    (hfail : env.dispatchOk = false) :
    (runCycle repos env store0).mem
      = loadRevisions (runCycle repos env store0).store (repos.map Repo.name) := by
  rw [runCycle_allChanges_checkRepos repos env store0] at hall
  rw [runCycle_def, dispatchPhase_of_fail env (repos.map Repo.name) _ hall hfail]

/-- C1: in every cycle whose aggregated payload is nonempty and whose
single dispatch fails, the persisted watermark of each
notification-enabled repository is unchanged, the in-memory map is
reloaded from the unwritten persisted store, and the next cycle
against the same remote state recomputes exactly the same pending set
of revision ranges. -/
theorem cycle_dispatch_failure_keeps_watermarks (repos : List Repo)
    (env : CycleEnv) (store0 : RevMap) (r : Repo)
    (hnodup : (repos.map Repo.name).Nodup) (hr : r ∈ repos)
    (hnotify : r.notify = true)
    (hall : (runCycle repos env store0).allChanges ≠ [])
    (hfail : env.dispatchOk = false) :
    dictGetD (runCycle repos env store0).store r.name 0
      = dictGetD store0 r.name 0 ∧
    (runCycle repos env store0).mem
      = loadRevisions (runCycle repos env store0).store (repos.map Repo.name) ∧
    (runCycle repos env ((runCycle repos env store0).store)).toUpdate
      = (runCycle repos env store0).toUpdate := by
  refine ⟨?_, runCycle_mem_reload_of_fail repos env store0 hall hfail, ?_⟩
  · exact runCycle_store_getD_notify_of_not_committed repos env store0 r hnodup
      hr hnotify (Or.inr hfail)
  · rw [runCycle_toUpdate_store repos env ((runCycle repos env store0).store) hnodup,
      runCycle_toUpdate_store repos env store0 hnodup]
    apply toUpdateSpec_congr
    intro r' hr' hnot'
    exact runCycle_store_getD_notify_of_not_committed repos env store0 r' hnodup
      hr' hnot' (Or.inr hfail)

/-- Witness for C1: one notification-enabled repository at latest
revision 5 over an empty store, with failing dispatch: the payload is
nonempty, the persisted watermark stays 0, the in-memory map is the
reload of the store, and the next cycle recomputes the same pending
range. -/
theorem cycle_dispatch_failure_keeps_watermarks_witness :
    (runCycle [⟨"A", true⟩] cycleFailEnv []).allChanges ≠ [] ∧
    dictGetD (runCycle [⟨"A", true⟩] cycleFailEnv []).store "A" 0 = 0 ∧
    (runCycle [⟨"A", true⟩] cycleFailEnv []).mem
      = loadRevisions (runCycle [⟨"A", true⟩] cycleFailEnv []).store ["A"] ∧
    (runCycle [⟨"A", true⟩] cycleFailEnv
        ((runCycle [⟨"A", true⟩] cycleFailEnv []).store)).toUpdate
      = (runCycle [⟨"A", true⟩] cycleFailEnv []).toUpdate := by
  have hall : (runCycle [⟨"A", true⟩] cycleFailEnv []).allChanges ≠ [] := by decide
  have h := cycle_dispatch_failure_keeps_watermarks [⟨"A", true⟩] cycleFailEnv []
    ⟨"A", true⟩ (by decide) (List.mem_singleton.mpr rfl) rfl hall rfl
  exact ⟨hall, h.1, h.2.1, h.2.2⟩

/-- Counterexample for C2: a hook commit for a notification-enabled
repository whose change retrieval returns an empty list advances the
persisted watermark from 0 to 5 with zero dispatch attempts — the
revision is persisted although notification was required for the
repository and never confirmed delivered. -/
theorem hook_advances_watermark_without_dispatch :
    (Repo.mk "A" true).notify = true ∧
    (processCommit ⟨"A", true⟩ ["A"] [] (fun _ _ => []) false 5).1
      = [("A", 5)] ∧
    (processCommit ⟨"A", true⟩ ["A"] [] (fun _ _ => []) false 5).2 = 0 := by
  decide

/-- C2 (amended): over any sequence of scheduled cycles and hook
commits the persisted watermark of a configured repository never
decreases; a cycle advances it only to the observed latest revision,
and only when notifications are disabled or the aggregated dispatch of
a nonempty payload succeeded; a hook commit advances it only to the
hook revision, and only when notifications are disabled (zero dispatch
attempts), the retrieved change list was empty (zero dispatch
attempts), or the single dispatch succeeded. -/
theorem watermark_monotone_and_gated (repos : List Repo)
    (hnodup : (repos.map Repo.name).Nodup) :
    (∀ (ops : List MonitorOp) (store0 : RevMap) (n : String),
      n ∈ repos.map Repo.name →
      dictGetD store0 n 0 ≤ dictGetD (runOps repos ops store0) n 0) ∧
    (∀ (env : CycleEnv) (store0 : RevMap) (n : String),
      n ∈ repos.map Repo.name →
      dictGetD (runCycle repos env store0).store n 0 ≠ dictGetD store0 n 0 →
      ∃ r, r ∈ repos ∧ r.name = n ∧
        (∃ l, env.latest n = some l ∧
          dictGetD (runCycle repos env store0).store n 0 = l ∧
          l > dictGetD store0 n 0) ∧
        (r.notify = false ∨ (r.notify = true ∧ env.dispatchOk = true ∧
          (runCycle repos env store0).allChanges ≠ []))) ∧
    (∀ (r : Repo) (g : Nat → Nat → List ChangeRecord) (ok : Bool)
      (rev : Nat) (store0 : RevMap) (n : String),
      n ∈ repos.map Repo.name →
      dictGetD (processCommit r (repos.map Repo.name) store0 g ok rev).1 n 0
        ≠ dictGetD store0 n 0 →
      n = r.name ∧
      dictGetD (processCommit r (repos.map Repo.name) store0 g ok rev).1 n 0
        = rev ∧
      rev > dictGetD store0 n 0 ∧
      ((r.notify = false ∧
          (processCommit r (repos.map Repo.name) store0 g ok rev).2 = 0) ∨
       (g (dictGetD store0 n 0) rev = [] ∧
          (processCommit r (repos.map Repo.name) store0 g ok rev).2 = 0) ∨
       (r.notify = true ∧ ok = true ∧
          (processCommit r (repos.map Repo.name) store0 g ok rev).2 = 1))) := by
  refine ⟨?_, ?_, ?_⟩
  · intro ops store0 n hn
    exact runOps_store_getD_ge repos ops hnodup n hn store0
  · intro env store0 n hn hne
    exact runCycle_advance_cases repos env store0 n hnodup hn hne
  · intro r g ok rev store0 n hn hne
    exact processCommit_advance_cases r (repos.map Repo.name) store0 g ok rev n hn hne

/-- Witness for C2 (amended): monotonicity applied to a single hook
commit on one configured repository — the persisted watermark, 0
before the commit, does not decrease. -/
theorem watermark_monotone_and_gated_witness :
    dictGetD [] "A" 0
      ≤ dictGetD (runOps [⟨"A", true⟩]
          [MonitorOp.hook ⟨"A", true⟩ (fun _ _ => []) false 5] []) "A" 0 :=
  (watermark_monotone_and_gated [⟨"A", true⟩] (by decide)).1
    [MonitorOp.hook ⟨"A", true⟩ (fun _ _ => []) false 5] [] "A" (by decide)

end SvnMonitor
